import Mathlib

/-!
# Letarette indexer core: a shallow embedding

This file embeds the data model and store/cycle operations of the
letarette indexer core (`internal/letarette/db.go` and the indexer file)
and proves properties of the embedding.

Tables are lists of rows; SQL statements become list transformations.
SQLite transactions become `Except`-valued functions: an `.error` result
means the transaction rolled back and nothing persisted, an `.ok` result
carries the committed database state.

The schema constraints used by the code (from the persisted-state schema:
`spaces.space UNIQUE`, `interest PK(spaceID, docID)`,
`docs PK(spaceID, docID)`) are modelled where the statements depend on
them: plain `insert into interest` fails on a primary-key conflict, and
`replace into docs` removes any row with the same key before inserting.
-/

namespace Letarette

/-- State of one interest row: `pending`, `requested` or `served`. -/
inductive InterestState where
  | pending
  | requested
  | served
deriving DecidableEq, Repr

/-- One row of the `interest` table: `interest(spaceID, docID, state)`. -/
structure InterestRow where
  spaceID : Nat
  docID : String
  state : InterestState
deriving DecidableEq, Repr

/-- One row of the `docs` table:
`docs(spaceID, docID, updatedNanos, txt, alive)`. -/
structure DocRow where
  spaceID : Nat
  docID : String
  updatedNanos : Int
  txt : String
  alive : Bool
deriving DecidableEq, Repr

/-- One row of the `spaces` table:
`spaces(spaceID, space, listCreatedAtNanos, lastUpdatedAtNanos, lastUpdatedDocID)`. -/
structure SpaceRow where
  spaceID : Nat
  space : String
  listCreatedAtNanos : Int
  lastUpdatedAtNanos : Int
  lastUpdatedDocID : String
deriving DecidableEq, Repr

/-- The persistent store state: the three tables the indexer core touches. -/
structure DBState where
  spaces : List SpaceRow
  interest : List InterestRow
  docs : List DocRow
deriving DecidableEq, Repr

/-- A `protocol.Document` as delivered in a `DocumentUpdate` message:
`{ID, Updated, Alive, Text}` with the timestamp already in nanoseconds. -/
structure Document where
  id : String
  updatedNanos : Int
  alive : Bool
  text : String
deriving DecidableEq, Repr

/-- Error results of the store operations. Go returns `error` values built
with `fmt.Errorf`; we classify them by the failure site. -/
inductive DbError where
  | noSuchSpace
  | activeListExists
  | docWriteFailed
  | interestKeyConflict
  | positionUpdateFailed
deriving DecidableEq, Repr

/-- `select spaceID from spaces where space = ?` (`getSpaceID`):
first row with the given name, if any. -/
def getSpaceID (st : DBState) (space : String) : Option Nat :=
  (st.spaces.find? (fun s => decide (s.space = space))).map (fun s => s.spaceID)

/-- The document row written by `addDocumentUpdates` for one incoming
document: `txt` is emptied when the document is not alive. -/
def mkDocRow (sid : Nat) (d : Document) : DocRow :=
  { spaceID := sid, docID := d.id, updatedNanos := d.updatedNanos,
    txt := if d.alive then d.text else "", alive := d.alive }

/-- `replace into docs (spaceID, docID, updatedNanos, txt, alive)`:
any row with the same primary key is removed and the new row inserted. -/
def upsertDoc (t : List DocRow) (row : DocRow) : List DocRow :=
  t.filter (fun x => decide (¬(x.spaceID = row.spaceID ∧ x.docID = row.docID))) ++ [row]

/-- The row update of `update interest set state = 'served'
where spaceID = ? and docID = ?`: set the state when the key matches. -/
def serveRow (sid : Nat) (docID : String) (r : InterestRow) : InterestRow :=
  if r.spaceID = sid ∧ r.docID = docID then { r with state := .served } else r

/-- `update interest set state = 'served' where spaceID = ? and docID = ?`. -/
def serveInterest (t : List InterestRow) (sid : Nat) (docID : String) : List InterestRow :=
  t.map (serveRow sid docID)

/-- The loop body of `addDocumentUpdates`: per document, upsert the docs
row, check the driver-reported affected-row count, then mark the matching
interest row served.  `reports k` is the value `RowsAffected` returns for
the `k`-th upsert; on a healthy SQLite connection a successful
`replace into` reports 1, other values model the engine-level failures the
code guards against (`updatedRows != 1`). -/
def addDocsLoop (sid : Nat) (reports : Nat → Nat) :
    Nat → List Document → List DocRow × List InterestRow →
    Except DbError (List DocRow × List InterestRow)
  | _, [], s => .ok s
  | k, d :: ds, (dt, it) =>
      let dt' := upsertDoc dt (mkDocRow sid d)
      if reports k = 1 then
        addDocsLoop sid reports (k + 1) ds (dt', serveInterest it sid d.id)
      else .error .docWriteFailed

/-- `addDocumentUpdates(ctx, space, docs)`: one write transaction; on any
failure the transaction rolls back and nothing written by the batch
persists (the `.error` result carries no state). -/
def addDocumentUpdates (reports : Nat → Nat) (st : DBState) (space : String)
    (docs : List Document) : Except DbError DBState :=
  match getSpaceID st space with
  | none => .error .noSuchSpace
  | some sid =>
    match addDocsLoop sid reports 0 docs (st.docs, st.interest) with
    | .error e => .error e
    | .ok (dt, it) => .ok { st with docs := dt, interest := it }

/-- `addDocumentUpdates` as it runs against SQLite, where every successful
`replace into` a keyed table reports exactly one affected row. -/
def addDocumentUpdatesRun (st : DBState) (space : String) (docs : List Document) :
    Except DbError DBState :=
  addDocumentUpdates (fun _ => 1) st space docs

/-- The accumulated effect of the batch's upserts on the docs table. -/
def applyDocs (sid : Nat) (dt : List DocRow) (ds : List Document) : List DocRow :=
  ds.foldl (fun t d => upsertDoc t (mkDocRow sid d)) dt

/-- The accumulated effect of the batch's interest updates. -/
def serveDocs (sid : Nat) (it : List InterestRow) (ds : List Document) :
    List InterestRow :=
  ds.foldl (fun t d => serveInterest t sid d.id) it

/-- The primary key of a docs row. -/
def docKey (x : DocRow) : Nat × String :=
  (x.spaceID, x.docID)

/-- The primary keys a batch writes under a space id. -/
def batchKeys (sid : Nat) (ds : List Document) : List (Nat × String) :=
  ds.map (fun d => (sid, d.id))

/-- Candidate rows of the `commitInterestList` query: served interest rows
(of any space: the query has no `spaceID` condition on `interest`) joined
with docs rows on `docID` alone, keeping pairs updated strictly before the
given space's `listCreatedAtNanos`. -/
def commitCandidates (st : DBState) (createdAt : Int) : List (Int × String) :=
  st.interest.flatMap (fun i =>
    if i.state = .served then
      st.docs.filterMap (fun d =>
        if d.docID = i.docID ∧ d.updatedNanos < createdAt then
          some (d.updatedNanos, d.docID)
        else none)
    else [])

/-- Byte comparison of character sequences: the order SQLite's BINARY
collation gives document ids, and the order the spec calls "totally
ordered by byte comparison" (UTF-8 byte order coincides with scalar-value
order). -/
def charListLtB : List Char → List Char → Bool
  | [], [] => false
  | [], _ :: _ => true
  | _ :: _, [] => false
  | a :: as, b :: bs =>
    if a.toNat < b.toNat then true
    else if b.toNat < a.toNat then false
    else charListLtB as bs

/-- Strict byte-comparison order on document ids. -/
def docIDLtB (a b : String) : Bool :=
  charListLtB a.data b.data

/-- Strict byte-comparison order on document ids, as a proposition. -/
def docIDLt (a b : String) : Prop :=
  docIDLtB a b = true

instance (a b : String) : Decidable (docIDLt a b) := by
  unfold docIDLt; infer_instance

/-- The cursor tuple order of the spec: first by timestamp ascending, then
by document id ascending (strict part). -/
def cursorLT (a b : Int × String) : Prop :=
  a.1 < b.1 ∨ (a.1 = b.1 ∧ docIDLt a.2 b.2)

instance (a b : Int × String) : Decidable (cursorLT a b) := by
  unfold cursorLT; infer_instance

/-- The cursor tuple order of the spec, non-strict. -/
def cursorLE (a b : Int × String) : Prop :=
  a = b ∨ cursorLT a b

instance (a b : Int × String) : Decidable (cursorLE a b) := by
  unfold cursorLE; infer_instance

/-- `order by docs.updatedNanos desc, docs.docID`: `a` sorts strictly
before `b` when it has a larger timestamp, or an equal timestamp and a
smaller (byte-ordered) document id. -/
def commitRowBefore (a b : Int × String) : Bool :=
  decide (b.1 < a.1) || (decide (a.1 = b.1) && docIDLtB a.2 b.2)

/-- `limit 1` over the ordered candidates: the first row of the
`order by updatedNanos desc, docID` ordering, if any row exists. -/
def selectCommitRow : List (Int × String) → Option (Int × String)
  | [] => none
  | c :: cs => some (cs.foldl (fun best x => if commitRowBefore x best then x else best) c)

/-- `commitInterestList(ctx, space)`: select the first candidate of the
ordered join; `ErrNoRows` (no space row, or no candidate) commits as a
successful no-op; otherwise write the pair into the space row, requiring
exactly one affected row. -/
def commitInterestList (st : DBState) (space : String) : Except DbError DBState :=
  match st.spaces.find? (fun s => decide (s.space = space)) with
  | none => .ok st
  | some srow =>
    match selectCommitRow (commitCandidates st srow.listCreatedAtNanos) with
    | none => .ok st
    | some (u, d) =>
      if (st.spaces.filter (fun s => decide (s.space = space))).length = 1 then
        .ok { st with spaces := st.spaces.map (fun s =>
          if s.space = space then
            { s with lastUpdatedAtNanos := u, lastUpdatedDocID := d }
          else s) }
      else .error .positionUpdateFailed

/-- `insert into interest (spaceID, docID, state) values (?, ?, 'pending')`
row by row; a primary-key conflict on `(spaceID, docID)` aborts. -/
def insertInterests (sid : Nat) (t : List InterestRow) :
    List String → Except DbError (List InterestRow)
  | [] => .ok t
  | d :: ds =>
    if t.any (fun r => decide (r.spaceID = sid ∧ r.docID = d)) then
      .error .interestKeyConflict
    else insertInterests sid (t ++ [⟨sid, d, .pending⟩]) ds

/-- `setInterestList(ctx, space, list)`: in one transaction, fail with
`ActiveListExists` when any interest row of the space is not served;
otherwise delete the space's interest rows, insert the new list as
`pending`, and stamp `listCreatedAtNanos` with the current time.
Any failure rolls the transaction back. -/
def setInterestList (st : DBState) (space : String) (list : List String) (now : Int) :
    Except DbError DBState :=
  match st.spaces.find? (fun s => decide (s.space = space)) with
  | none => .error .noSuchSpace
  | some srow =>
    let sid := srow.spaceID
    if (st.interest.filter (fun r =>
          decide (r.spaceID = sid ∧ r.state ≠ .served))).length ≠ 0 then
      .error .activeListExists
    else
      match insertInterests sid
          (st.interest.filter (fun r => decide (r.spaceID ≠ sid))) list with
      | .error e => .error e
      | .ok t =>
        .ok { st with
          interest := t,
          spaces := st.spaces.map (fun s =>
            if s.spaceID = sid then { s with listCreatedAtNanos := now } else s) }

/-- `clearInterestList(ctx, space)`: delete all interest rows of the space. -/
def clearInterestList (st : DBState) (space : String) : Except DbError DBState :=
  match getSpaceID st space with
  | none => .error .noSuchSpace
  | some sid =>
    .ok { st with interest := st.interest.filter (fun r => decide (r.spaceID ≠ sid)) }

/-- `resetRequested(ctx, space)`:
`update interest set state = 'pending' where state = 'requested' and spaceID = ?`. -/
def resetRequested (st : DBState) (space : String) : Except DbError DBState :=
  match getSpaceID st space with
  | none => .error .noSuchSpace
  | some sid =>
    .ok { st with interest := st.interest.map (fun r =>
      if r.state = .requested ∧ r.spaceID = sid then { r with state := .pending } else r) }

/-- `setInterestState(ctx, space, docID, state)` with the space id already
resolved: idempotent single-row update keyed by `(spaceID, docID)`. -/
def setInterestStateRow (st : DBState) (sid : Nat) (docID : String)
    (state : InterestState) : DBState :=
  { st with interest := st.interest.map (fun r =>
      if r.spaceID = sid ∧ r.docID = docID then { r with state := state } else r) }

/-- The FTS search read path (`search`), with the FTS engine abstracted:
`matchP` decides whether a stored text matches the phrase and `rank` is
the engine's rank.  The query keeps matching, alive rows of the requested
spaces, orders by rank ascending, and applies offset and limit.  We return
the selected `docs` rows; the SQL projection to
`(space, docID, snippet, rank)` keeps the row's identity. -/
def searchRows (matchP : String → Bool) (st : DBState)
    (spacesIn : List String) : List DocRow :=
  st.docs.filter (fun d =>
    matchP d.txt && d.alive &&
      (match st.spaces.find? (fun s => decide (s.spaceID = d.spaceID)) with
       | some s => decide (s.space ∈ spacesIn)
       | none => false))

/-- Insert a row into a rank-sorted list (`order by rank asc`). -/
def insertByRank (rank : DocRow → Int) (d : DocRow) : List DocRow → List DocRow
  | [] => [d]
  | x :: xs => if rank d ≤ rank x then d :: x :: xs else x :: insertByRank rank d xs

/-- Sort rows by ascending rank. -/
def sortByRank (rank : DocRow → Int) (l : List DocRow) : List DocRow :=
  l.foldr (insertByRank rank) []

/-- The full `search` row pipeline: filter, order by rank, offset, limit. -/
def search (matchP : String → Bool) (rank : DocRow → Int) (st : DBState)
    (spacesIn : List String) (limit offset : Nat) : List DocRow :=
  ((sortByRank rank (searchRows matchP st spacesIn)).drop offset).take limit

/-!
## The update cycle (indexer)

The per-space cycle of `runUpdateCycle`, `requestDocuments`,
`requestNextChunk` and the stall branch, with the bus abstracted: a
published `DocumentRequest` becomes a returned message value, and the
synchronous `index.request` round trip becomes a `reply` parameter.
-/

/-- The configuration fields the cycle reads. -/
structure Config where
  maxOutstanding : Nat
  chunkSize : Nat
  maxDocumentWaitNanos : Int
  maxInterestWaitNanos : Int
deriving Repr

/-- `protocol.DocumentRequest{Space, Wanted}`. -/
structure DocumentRequest where
  space : String
  wanted : List String
deriving DecidableEq, Repr

/-- `protocol.IndexUpdateRequest{Space, FromTime, AfterDocument, Limit}`
together with the request deadline (`MaxInterestWait`). -/
structure IndexUpdateRequest where
  space : String
  fromTimeNanos : Int
  afterDocument : String
  limit : Nat
  timeoutNanos : Int
deriving DecidableEq, Repr

/-- `protocol.IndexUpdate{Space, Updates}`: the provider's reply. -/
structure IndexUpdate where
  space : String
  updates : List String
deriving DecidableEq, Repr

/-- Count of rows in a given state (the cycle's `numPending`/`numRequested`
/`numServed` tallies over the fetched list). -/
def countByState (l : List InterestRow) (s : InterestState) : Nat :=
  (l.filter (fun r => decide (r.state = s))).length

/-- Document ids of the pending rows, in table order (`pendingIDs`). -/
def pendingIDs (l : List InterestRow) : List String :=
  (l.filter (fun r => decide (r.state = .pending))).map (fun r => r.docID)

/-- The interest rows of one space, as `getInterestList` returns them. -/
def interestOf (st : DBState) (sid : Nat) : List InterestRow :=
  st.interest.filter (fun r => decide (r.spaceID = sid))

/-- The `setInterestState(.., requested)` calls of `requestDocuments`,
applied in order over the wanted ids. -/
def markRequestedIDs (st : DBState) (sid : Nat) (ids : List String) : DBState :=
  ids.foldl (fun s d => setInterestStateRow s sid d .requested) st

/-- `docsToRequest := min(numPending, maxOutstanding - numRequested)` over
Go ints: the subtraction may go negative. -/
def docsToRequest (cfg : Config) (interests : List InterestRow) : Int :=
  min (countByState interests .pending : Int)
    ((cfg.maxOutstanding : Int) - (countByState interests .requested : Int))

/-- The request half of `runUpdateCycle` followed by `requestDocuments`:
fetch the space's interest rows, compute `docsToRequest`, and when
positive mark the first `docsToRequest` pending rows `requested` and
publish a single `DocumentRequest`.  `pubOk` tells whether the publish
succeeds; the row transitions happen before (hence regardless of) the
publish. -/
def updateCycleRequestPhase (cfg : Config) (st : DBState) (space : String)
    (pubOk : Bool) : DBState × List DocumentRequest :=
  match getSpaceID st space with
  | none => (st, [])
  | some sid =>
    let interests := interestOf st sid
    let want := docsToRequest cfg interests
    if 0 < want then
      let toRequest := (pendingIDs interests).take want.toNat
      (markRequestedIDs st sid toRequest, if pubOk then [⟨space, toRequest⟩] else [])
    else (st, [])

/-- The database state observed after the first `j` of the request phase's
one-by-one `setInterestState` transitions (taking `j` large gives the
phase's final state). -/
def requestPhaseObserved (cfg : Config) (st : DBState) (space : String)
    (j : Nat) : DBState :=
  match getSpaceID st space with
  | none => st
  | some sid =>
    let interests := interestOf st sid
    let want := docsToRequest cfg interests
    if 0 < want then
      markRequestedIDs st sid (((pendingIDs interests).take want.toNat).take j)
    else st

/-- `requestNextChunk(space)`: read the space's cursor, form the
`IndexUpdateRequest` from it, and install the provider's reply via
`setInterestList` — at the space named in the reply (`update.Space`).
The synchronous bus round trip is abstracted into the `reply` parameter;
`now` is the wall-clock nanosecond value `setInterestList` stamps. -/
def requestNextChunk (cfg : Config) (st : DBState) (space : String)
    (reply : IndexUpdate) (now : Int) : Except DbError (IndexUpdateRequest × DBState) :=
  match st.spaces.find? (fun s => decide (s.space = space)) with
  | none => .error .noSuchSpace
  | some srow =>
    let req : IndexUpdateRequest :=
      { space := space, fromTimeNanos := srow.lastUpdatedAtNanos,
        afterDocument := srow.lastUpdatedDocID, limit := cfg.chunkSize,
        timeoutNanos := cfg.maxInterestWaitNanos }
    match setInterestList st reply.space reply.updates now with
    | .error e => .error e
    | .ok st' => .ok (req, st')

/-- The `allServed` branch of `runUpdateCycle`: `commitFetched` (that is,
`commitInterestList`) followed by `requestNextChunk` on the committed
state. -/
def allServedBranch (cfg : Config) (st : DBState) (space : String)
    (reply : IndexUpdate) (now : Int) : Except DbError (IndexUpdateRequest × DBState) :=
  match commitInterestList st space with
  | .error e => .error e
  | .ok st1 => requestNextChunk cfg st1 space reply now

/-- The stall branch of `runUpdateCycle` (taken when work remains):
reset the requested rows when `MaxDocumentWait` is non-zero and the last
document request is older than it (`time.Now().After(lastDocumentRequest.Add(timeout))`). -/
def stallCheck (maxDocumentWait nowNanos lastRequestNanos : Int) (st : DBState)
    (space : String) : Except DbError DBState :=
  if maxDocumentWait ≠ 0 ∧ lastRequestNanos + maxDocumentWait < nowNanos then
    resetRequested st space
  else .ok st

/-!
## The indexer as a transition system

Every store write is serialized on the single write connection, so the
reachable database states are those produced by the write operations the
program issues.  The `request` constructor exposes every intermediate
state of the request phase's one-by-one transitions via the prefix
index `j`.
-/

/-- One serialized write by the indexer program: a document batch from the
sink, a new interest list, the startup clear, a stall reset, a commit, or
(a prefix of) the request phase's row transitions. -/
inductive IndexerStep (cfg : Config) : DBState → DBState → Prop
  | serve {st st' : DBState} (space : String) (docs : List Document)
      (reports : Nat → Nat)
      (h : addDocumentUpdates reports st space docs = .ok st') : IndexerStep cfg st st'
  | setList {st st' : DBState} (space : String) (list : List String) (now : Int)
      (h : setInterestList st space list now = .ok st') :
      IndexerStep cfg st st'
  | clear {st st' : DBState} (space : String)
      (h : clearInterestList st space = .ok st') : IndexerStep cfg st st'
  | reset {st st' : DBState} (space : String)
      (h : resetRequested st space = .ok st') : IndexerStep cfg st st'
  | commit {st st' : DBState} (space : String)
      (h : commitInterestList st space = .ok st') : IndexerStep cfg st st'
  | request (st : DBState) (space : String) (j : Nat) :
      IndexerStep cfg st (requestPhaseObserved cfg st space j)

/-- Count of requested rows of one space
(`count(interest where state = requested and spaceID = sid)`). -/
def countRequested (t : List InterestRow) (sid : Nat) : Nat :=
  (t.filter (fun r => decide (r.spaceID = sid ∧ r.state = .requested))).length

/-- The interest table's primary key `(spaceID, docID)` has no duplicates. -/
def interestKeysNodup (t : List InterestRow) : Prop :=
  (t.map (fun r => (r.spaceID, r.docID))).Nodup

instance (t : List InterestRow) : Decidable (interestKeysNodup t) := by
  unfold interestKeysNodup
  infer_instance

/-- The indexer's running invariant: interest keys are unique (the table's
primary key) and no space has more than `MaxOutstanding` requested rows. -/
def indexerInv (cfg : Config) (st : DBState) : Prop :=
  interestKeysNodup st.interest ∧
    ∀ sid, countRequested st.interest sid ≤ cfg.maxOutstanding

/-- The cursor of a space: `(lastUpdatedAtNanos, lastUpdatedDocID)`. -/
def cursorOf (st : DBState) (space : String) : Option (Int × String) :=
  (st.spaces.find? (fun s => decide (s.space = space))).map
    (fun s => (s.lastUpdatedAtNanos, s.lastUpdatedDocID))

/-- Claim-side candidate set for the commit advance, following the spec's
words: the `(updatedNanos, docID)` pairs of *that space's* served
interests — the served interest rows of the space joined with the space's
own document rows — whose `updatedNanos` is strictly below the space's
`listCreatedAtNanos`. -/
def claimCommitCandidates (st : DBState) (sid : Nat) (createdAt : Int) :
    List (Int × String) :=
  st.interest.flatMap (fun i =>
    if i.spaceID = sid ∧ i.state = .served then
      st.docs.filterMap (fun d =>
        if d.spaceID = sid ∧ d.docID = i.docID ∧ d.updatedNanos < createdAt then
          some (d.updatedNanos, d.docID)
        else none)
    else [])

/-- Claim-side notion of "the highest `(updatedNanos, docID)` pair" of a
candidate list, under the cursor tuple order. -/
def isHighestPair (cs : List (Int × String)) (p : Int × String) : Prop :=
  p ∈ cs ∧ ∀ c ∈ cs, cursorLE c p

/-- One commit against freshly supplied interest and docs tables: the
sequence form of the monotone-progress claim installs arbitrary table
contents before each commit. -/
def commitWithTables (st : DBState) (space : String)
    (tabs : List InterestRow × List DocRow) : Except DbError DBState :=
  commitInterestList { st with interest := tabs.1, docs := tabs.2 } space

/-- A sequence of successful commits, each on arbitrary table contents. -/
def commitSeq (st : DBState) (space : String) :
    List (List InterestRow × List DocRow) → Except DbError DBState
  | [] => .ok st
  | t :: ts =>
    match commitWithTables st space t with
    | .error e => .error e
    | .ok st' => commitSeq st' space ts

/-!
## Concrete instances

Database states used by counterexamples and by witnesses of theorems with
hypotheses.
-/

/-- A single-space state with two served interests whose documents share
one timestamp strictly below `listCreatedAtNanos`. -/
def exTieState : DBState :=
  { spaces := [⟨1, "s", 10, 0, ""⟩],
    interest := [⟨1, "a", .served⟩, ⟨1, "b", .served⟩],
    docs := [⟨1, "a", 5, "x", true⟩, ⟨1, "b", 5, "y", true⟩] }

/-- The state `commitInterestList exTieState "s"` commits. -/
def exTieResult : DBState :=
  { exTieState with spaces := [⟨1, "s", 10, 5, "a"⟩] }

/-- A single-space state with an empty current chunk, cursor at the origin. -/
def exSeqState : DBState :=
  { spaces := [⟨1, "s", 100, 0, ""⟩], interest := [], docs := [] }

/-- First arbitrary table contents for a commit sequence. -/
def exSeqTabsA : List InterestRow × List DocRow :=
  ([⟨1, "x", .served⟩], [⟨1, "x", 10, "t", true⟩])

/-- Second arbitrary table contents, holding only an older served pair. -/
def exSeqTabsB : List InterestRow × List DocRow :=
  ([⟨1, "y", .served⟩], [⟨1, "y", 5, "u", true⟩])

/-- The state after committing `exSeqTabsA`: cursor `(10, "x")`. -/
def exSeqMid : DBState :=
  { spaces := [⟨1, "s", 100, 10, "x"⟩],
    interest := exSeqTabsA.1, docs := exSeqTabsA.2 }

/-- The state after then committing `exSeqTabsB`: cursor `(5, "y")`. -/
def exSeqFinal : DBState :=
  { spaces := [⟨1, "s", 100, 5, "y"⟩],
    interest := exSeqTabsB.1, docs := exSeqTabsB.2 }

/-- A single-space state with an empty interest table (hence trivially all
served), used against a proposed list with a duplicate document id. -/
def exDupState : DBState :=
  { spaces := [⟨1, "s", 10, 0, ""⟩], interest := [], docs := [] }

/-- A single-space state with one requested interest row for `"a"`. -/
def exDocState : DBState :=
  { spaces := [⟨1, "s", 10, 0, ""⟩],
    interest := [⟨1, "a", .requested⟩],
    docs := [⟨1, "a", 3, "old", true⟩] }

/-- A one-document tombstone batch for `"a"`. -/
def exBatch : List Document :=
  [⟨"a", 7, false, "ignored"⟩]

/-- A one-document batch for `"b"`, which has no interest row in
`exDocState`. -/
def exBatchNoInterest : List Document :=
  [⟨"b", 9, true, "fresh"⟩]

/-- A two-space state with requested, pending and served rows spread over
both spaces, used for the stall reset and the request phase. -/
def exStallState : DBState :=
  { spaces := [⟨1, "s", 10, 0, ""⟩, ⟨2, "u", 20, 0, ""⟩],
    interest := [⟨1, "a", .requested⟩, ⟨1, "b", .pending⟩,
                 ⟨2, "c", .requested⟩, ⟨1, "d", .served⟩],
    docs := [] }

/-- A two-space state with an empty interest table and distinct cursors,
used for the next-chunk request. -/
def exTwoSpaces : DBState :=
  { spaces := [⟨1, "A", 10, 42, "z"⟩, ⟨2, "B", 0, 0, ""⟩],
    interest := [], docs := [] }

/-!
## Byte-comparison order lemmas
-/

theorem charListLtB_cons_iff (x y : Char) (xs ys : List Char) :
    charListLtB (x :: xs) (y :: ys) = true ↔
      x.toNat < y.toNat ∨ (x.toNat = y.toNat ∧ charListLtB xs ys = true) := by
  by_cases h1 : x.toNat < y.toNat
  · simp [charListLtB, h1]
  · by_cases h2 : y.toNat < x.toNat
    · simp only [charListLtB, if_neg h1, if_pos h2]
      constructor
      · intro h; cases h
      · rintro (h | ⟨h, _⟩) <;> omega
    · have h3 : x.toNat = y.toNat := by omega
      simp [charListLtB, h1, h2, h3]

theorem charListLtB_irrefl (l : List Char) : charListLtB l l = false := by
  induction l with
  | nil => rfl
  | cons a as ih => simp [charListLtB, ih]

theorem charListLtB_trans {a b c : List Char} (hab : charListLtB a b = true)
    (hbc : charListLtB b c = true) : charListLtB a c = true := by
  induction a generalizing b c with
  | nil =>
    cases c with
    | nil =>
      cases b with
      | nil => simp [charListLtB] at hab
      | cons y ys => simp [charListLtB] at hbc
    | cons z zs => rfl
  | cons x xs ih =>
    cases b with
    | nil => simp [charListLtB] at hab
    | cons y ys =>
      cases c with
      | nil => simp [charListLtB] at hbc
      | cons z zs =>
        rw [charListLtB_cons_iff] at hab hbc ⊢
        rcases hab with h | ⟨h, h'⟩ <;> rcases hbc with g | ⟨g, g'⟩
        · exact Or.inl (by omega)
        · exact Or.inl (by omega)
        · exact Or.inl (by omega)
        · exact Or.inr ⟨by omega, ih h' g'⟩

theorem charListLtB_negtrans {a b c : List Char} (hab : charListLtB a b = false)
    (hbc : charListLtB b c = false) : charListLtB a c = false := by
  induction a generalizing b c with
  | nil =>
    cases b with
    | nil => exact hbc
    | cons y ys => simp [charListLtB] at hab
  | cons x xs ih =>
    cases c with
    | nil => rfl
    | cons z zs =>
      cases b with
      | nil => simp [charListLtB] at hbc
      | cons y ys =>
        rw [Bool.eq_false_iff] at hab hbc ⊢
        rw [ne_eq, charListLtB_cons_iff] at hab hbc ⊢
        push_neg at hab hbc ⊢
        refine ⟨by omega, fun hxz => ?_⟩
        have hxy : x.toNat = y.toNat := by omega
        have hyz : y.toNat = z.toNat := by omega
        have h1 := hab.2 hxy
        have h2 := hbc.2 hyz
        exact Bool.eq_false_iff.mp
          (ih (Bool.eq_false_iff.mpr h1) (Bool.eq_false_iff.mpr h2))

theorem commitRowBefore_irrefl (a : Int × String) : commitRowBefore a a = false := by
  simp [commitRowBefore, docIDLtB, charListLtB_irrefl]

theorem commitRowBefore_trans {a b c : Int × String}
    (hab : commitRowBefore a b = true) (hbc : commitRowBefore b c = true) :
    commitRowBefore a c = true := by
  simp only [commitRowBefore, Bool.or_eq_true, Bool.and_eq_true, decide_eq_true_eq,
    docIDLtB] at hab hbc ⊢
  rcases hab with h | ⟨h, h'⟩ <;> rcases hbc with g | ⟨g, g'⟩
  · exact Or.inl (by omega)
  · exact Or.inl (by omega)
  · exact Or.inl (by omega)
  · refine Or.inr ⟨by omega, ?_⟩
    have : a.2.data = a.2.data := rfl
    exact charListLtB_trans h' g'

theorem commitRowBefore_negtrans {a b c : Int × String}
    (hab : commitRowBefore a b = false) (hbc : commitRowBefore b c = false) :
    commitRowBefore a c = false := by
  simp only [commitRowBefore, Bool.or_eq_false_iff, Bool.and_eq_false_iff,
    decide_eq_false_iff_not, docIDLtB] at hab hbc ⊢
  obtain ⟨hab1, hab2⟩ := hab
  obtain ⟨hbc1, hbc2⟩ := hbc
  refine ⟨by omega, ?_⟩
  by_cases hac : a.1 = c.1
  · have hb1 : a.1 = b.1 := by omega
    have hb2 : b.1 = c.1 := by omega
    rcases hab2 with h | h
    · exact absurd hb1 h
    · rcases hbc2 with g | g
      · exact absurd hb2 g
      · exact Or.inr (charListLtB_negtrans h g)
  · exact Or.inl hac

/-- The fold implementing `limit 1` over `order by updatedNanos desc, docID`
returns a row of the list that no row sorts strictly before. -/
theorem foldCommitBest_spec (cs : List (Int × String)) (acc : Int × String) :
    (cs.foldl (fun best x => if commitRowBefore x best then x else best) acc) ∈ acc :: cs ∧
      ∀ c ∈ acc :: cs,
        commitRowBefore c
          (cs.foldl (fun best x => if commitRowBefore x best then x else best) acc) = false := by
  induction cs generalizing acc with
  | nil => simp [commitRowBefore_irrefl]
  | cons x cs ih =>
    simp only [List.foldl_cons]
    by_cases hb : commitRowBefore x acc = true
    · rw [if_pos hb]
      obtain ⟨ihmem, ihmin⟩ := ih x
      constructor
      · rcases List.mem_cons.mp ihmem with h | h
        · rw [h]; exact List.mem_cons_of_mem _ (List.mem_cons_self _ _)
        · exact List.mem_cons_of_mem _ (List.mem_cons_of_mem _ h)
      · intro c hc
        rcases List.mem_cons.mp hc with heq | hc'
        · subst heq
          have hxr := ihmin x (List.mem_cons_self _ _)
          by_contra hcr
          rw [Bool.not_eq_false] at hcr
          exact absurd (commitRowBefore_trans hb hcr) (by simp [hxr])
        · rcases List.mem_cons.mp hc' with heq | hc''
          · subst heq; exact ihmin _ (List.mem_cons_self _ _)
          · exact ihmin _ (List.mem_cons_of_mem _ hc'')
    · rw [if_neg hb]
      obtain ⟨ihmem, ihmin⟩ := ih acc
      constructor
      · rcases List.mem_cons.mp ihmem with h | h
        · rw [h]; exact List.mem_cons_self _ _
        · exact List.mem_cons_of_mem _ (List.mem_cons_of_mem _ h)
      · intro c hc
        rcases List.mem_cons.mp hc with heq | hc'
        · subst heq; exact ihmin _ (List.mem_cons_self _ _)
        · rcases List.mem_cons.mp hc' with heq | hc''
          · subst heq
            exact commitRowBefore_negtrans (Bool.eq_false_iff.mpr hb)
              (ihmin acc (List.mem_cons_self _ _))
          · exact ihmin _ (List.mem_cons_of_mem _ hc'')

theorem selectCommitRow_spec {cs : List (Int × String)} {p : Int × String}
    (h : selectCommitRow cs = some p) :
    p ∈ cs ∧ ∀ c ∈ cs, commitRowBefore c p = false := by
  cases cs with
  | nil => cases h
  | cons c cs =>
    have hspec := foldCommitBest_spec cs c
    have heq : cs.foldl (fun best x => if commitRowBefore x best then x else best) c = p := by
      simpa [selectCommitRow] using h
    rw [heq] at hspec
    exact hspec

theorem selectCommitRow_eq_none {cs : List (Int × String)}
    (h : selectCommitRow cs = none) : cs = [] := by
  cases cs with
  | nil => rfl
  | cons c cs => cases h

/-- All commit candidates were updated strictly before the list creation
time: served documents stamped at or after it never contribute. -/
theorem commitCandidates_lt (st : DBState) (ca : Int) :
    ∀ c ∈ commitCandidates st ca, c.1 < ca := by
  intro c hc
  simp only [commitCandidates, List.mem_flatMap] at hc
  obtain ⟨i, _, hc⟩ := hc
  by_cases hs : i.state = InterestState.served
  · rw [if_pos hs] at hc
    simp only [List.mem_filterMap] at hc
    obtain ⟨d, _, hd⟩ := hc
    by_cases hcond : d.docID = i.docID ∧ d.updatedNanos < ca
    · rw [if_pos hcond] at hd
      cases hd
      exact hcond.2
    · rw [if_neg hcond] at hd
      cases hd
  · rw [if_neg hs] at hc
    cases hc

theorem find?_space_name {st : DBState} {space : String} {srow : SpaceRow}
    (h : st.spaces.find? (fun s => decide (s.space = space)) = some srow) :
    srow.space = space := by
  simpa using List.find?_some h

theorem find?_spaces_map {st : DBState} {space : String} {srow : SpaceRow}
    (f : SpaceRow → SpaceRow) (hf : ∀ s, (f s).space = s.space)
    (h : st.spaces.find? (fun s => decide (s.space = space)) = some srow) :
    (st.spaces.map f).find? (fun s => decide (s.space = space)) = some (f srow) := by
  rw [List.find?_map]
  have : ((fun s : SpaceRow => decide (s.space = space)) ∘ f) =
      (fun s : SpaceRow => decide (s.space = space)) := by
    funext s; simp [hf]
  rw [this, h]; rfl

/-- C1 (counterexample): with two served interests of one space sharing the
timestamp 5 (below `listCreatedAtNanos = 10`), `commitInterestList` moves
the cursor to `(5, "a")` — `order by updatedNanos desc, docID` takes the
*smallest* document id on a timestamp tie — while the highest
`(updatedNanos, docID)` pair among the space's served interests is
`(5, "b")`, and `(5, "a")` is not that highest pair. -/
theorem commit_tie_counterexample :
    commitInterestList exTieState "s" = .ok exTieResult ∧
    cursorOf exTieResult "s" = some (5, "a") ∧
    isHighestPair (claimCommitCandidates exTieState 1 10) (5, "b") ∧
    ¬ isHighestPair (claimCommitCandidates exTieState 1 10) (5, "a") := by
  refine ⟨by rfl, by rfl, ⟨by decide, by decide⟩, ?_⟩
  rintro ⟨-, hall⟩
  have hb := hall (5, "b") (by decide)
  revert hb; decide

/-- C1 (amended): given the space row and a unique space name,
`commitInterestList` succeeds unchanged when the candidate join is empty,
and otherwise succeeds advancing the space's cursor to the candidate pair
with the maximal `updatedNanos`, ties broken by the *smallest* byte-ordered
`docID`; candidates are served interest rows of *any* space joined to docs
rows by `docID` alone, restricted to `updatedNanos` strictly below the
space's `listCreatedAtNanos` (later-stamped served documents never
contribute); the interest and docs tables are untouched. -/
theorem commit_advance_spec :
    ∀ (st : DBState) (space : String) (srow : SpaceRow),
      st.spaces.find? (fun s => decide (s.space = space)) = some srow →
      (st.spaces.filter (fun s => decide (s.space = space))).length = 1 →
      (∀ c ∈ commitCandidates st srow.listCreatedAtNanos,
        c.1 < srow.listCreatedAtNanos) ∧
      (commitCandidates st srow.listCreatedAtNanos = [] →
        commitInterestList st space = .ok st) ∧
      (commitCandidates st srow.listCreatedAtNanos ≠ [] →
        ∃ p st', p ∈ commitCandidates st srow.listCreatedAtNanos ∧
          (∀ c ∈ commitCandidates st srow.listCreatedAtNanos,
            c.1 ≤ p.1 ∧ (c.1 = p.1 → docIDLtB c.2 p.2 = false)) ∧
          commitInterestList st space = .ok st' ∧
          cursorOf st' space = some p ∧
          st'.interest = st.interest ∧ st'.docs = st.docs ∧
          st'.spaces = st.spaces.map (fun s =>
            if s.space = space then
              { s with lastUpdatedAtNanos := p.1, lastUpdatedDocID := p.2 }
            else s)) := by
  intro st space srow h1 h2
  refine ⟨commitCandidates_lt st srow.listCreatedAtNanos, ?_, ?_⟩
  · intro he
    simp only [commitInterestList, h1, he, selectCommitRow]
  · intro hne
    cases hsel : selectCommitRow (commitCandidates st srow.listCreatedAtNanos) with
    | none => exact absurd (selectCommitRow_eq_none hsel) hne
    | some p =>
      obtain ⟨hmem, hmin⟩ := selectCommitRow_spec hsel
      obtain ⟨u, d⟩ := p
      refine ⟨(u, d),
        { st with spaces := st.spaces.map (fun s =>
            if s.space = space then
              { s with lastUpdatedAtNanos := u, lastUpdatedDocID := d }
            else s) },
        hmem, ?_, ?_, ?_, rfl, rfl, rfl⟩
      · intro c hc
        have hcp := hmin c hc
        simp only [commitRowBefore, Bool.or_eq_false_iff, Bool.and_eq_false_iff,
          decide_eq_false_iff_not, docIDLtB] at hcp
        obtain ⟨hle, hor⟩ := hcp
        refine ⟨by omega, fun hequ => ?_⟩
        rcases hor with h | h
        · exact absurd hequ h
        · exact h
      · simp only [commitInterestList, h1, hsel, if_pos h2]
      · have hfind := find?_spaces_map
          (fun s => if s.space = space then
            { s with lastUpdatedAtNanos := u, lastUpdatedDocID := d }
          else s)
          (fun s => by by_cases h : s.space = space <;> simp [h]) h1
        simp only [cursorOf]
        rw [hfind]
        simp [find?_space_name h1]

/-- C1 (witness): the amended commit characterization applied to the
concrete tie state. -/
theorem commit_advance_spec_witness :
    (exTieState.spaces.find? (fun s => decide (s.space = "s")) =
      some ⟨1, "s", 10, 0, ""⟩) ∧
    ((exTieState.spaces.filter (fun s => decide (s.space = "s"))).length = 1) ∧
    ((∀ c ∈ commitCandidates exTieState 10, c.1 < 10) ∧
      (commitCandidates exTieState 10 = [] →
        commitInterestList exTieState "s" = .ok exTieState) ∧
      (commitCandidates exTieState 10 ≠ [] →
        ∃ p st', p ∈ commitCandidates exTieState 10 ∧
          (∀ c ∈ commitCandidates exTieState 10,
            c.1 ≤ p.1 ∧ (c.1 = p.1 → docIDLtB c.2 p.2 = false)) ∧
          commitInterestList exTieState "s" = .ok st' ∧
          cursorOf st' "s" = some p ∧
          st'.interest = exTieState.interest ∧ st'.docs = exTieState.docs ∧
          st'.spaces = exTieState.spaces.map (fun s =>
            if s.space = "s" then
              { s with lastUpdatedAtNanos := p.1, lastUpdatedDocID := p.2 }
            else s))) :=
  ⟨by rfl, by rfl,
    commit_advance_spec exTieState "s" ⟨1, "s", 10, 0, ""⟩ (by rfl) (by rfl)⟩

/-- C2 (counterexample): two successful commits of the same space, each
with freshly supplied interest/docs contents, move the cursor from
`(10, "x")` down to `(5, "y")`: the pair `(lastUpdatedAtNanos,
lastUpdatedDocID)` is not non-decreasing across successful
`commitInterestList` calls for arbitrary table contents. -/
theorem commit_monotone_counterexample :
    commitWithTables exSeqState "s" exSeqTabsA = .ok exSeqMid ∧
    cursorOf exSeqMid "s" = some (10, "x") ∧
    commitWithTables exSeqMid "s" exSeqTabsB = .ok exSeqFinal ∧
    cursorOf exSeqFinal "s" = some (5, "y") ∧
    ¬ cursorLE (10, "x") (5, "y") :=
  ⟨by rfl, by rfl, by rfl, by rfl, by decide⟩

/-- C2 (amended): a successful `commitInterestList` installs its selected
candidate without comparing it to the current cursor, so the cursor is
non-decreasing in the (timestamp, byte-ordered docID) order across a
commit exactly under the proviso that every candidate pair of that commit
is at least the current cursor — as in the intended protocol, where each
chunk's documents lie after the cursor. -/
theorem commit_monotone_of_candidates_ge :
    ∀ (st : DBState) (space : String) (srow : SpaceRow) (st' : DBState),
      st.spaces.find? (fun s => decide (s.space = space)) = some srow →
      commitInterestList st space = .ok st' →
      (∀ c ∈ commitCandidates st srow.listCreatedAtNanos,
        cursorLE (srow.lastUpdatedAtNanos, srow.lastUpdatedDocID) c) →
      ∃ srow', st'.spaces.find? (fun s => decide (s.space = space)) = some srow' ∧
        cursorLE (srow.lastUpdatedAtNanos, srow.lastUpdatedDocID)
          (srow'.lastUpdatedAtNanos, srow'.lastUpdatedDocID) := by
  intro st space srow st' h1 hcommit hge
  simp only [commitInterestList, h1] at hcommit
  cases hsel : selectCommitRow (commitCandidates st srow.listCreatedAtNanos) with
  | none =>
    simp only [hsel] at hcommit
    cases hcommit
    exact ⟨srow, h1, Or.inl rfl⟩
  | some p =>
    obtain ⟨u, d⟩ := p
    simp only [hsel] at hcommit
    by_cases h2 : (st.spaces.filter (fun s => decide (s.space = space))).length = 1
    · rw [if_pos h2] at hcommit
      cases hcommit
      obtain ⟨hmem, -⟩ := selectCommitRow_spec hsel
      have hfind := find?_spaces_map
        (fun s => if s.space = space then
          { s with lastUpdatedAtNanos := u, lastUpdatedDocID := d }
        else s)
        (fun s => by by_cases h : s.space = space <;> simp [h]) h1
      refine ⟨_, hfind, ?_⟩
      have := hge (u, d) hmem
      simpa [find?_space_name h1] using this
    · rw [if_neg h2] at hcommit
      cases hcommit

/-!
## Interest-list installation (`setInterestList`)
-/

theorem insertInterests_ok (sid : Nat) :
    ∀ (ds : List String) (t : List InterestRow),
      (∀ d ∈ ds, ∀ r ∈ t, ¬(r.spaceID = sid ∧ r.docID = d)) →
      ds.Nodup →
      insertInterests sid t ds =
        .ok (t ++ ds.map (fun d => ⟨sid, d, .pending⟩)) := by
  intro ds
  induction ds with
  | nil => intro t _ _; simp [insertInterests]
  | cons d ds ih =>
    intro t hfresh hnodup
    have hcond : t.any (fun r => decide (r.spaceID = sid ∧ r.docID = d)) = false := by
      rw [Bool.eq_false_iff]
      intro hany
      obtain ⟨r, hr, hp⟩ := List.any_eq_true.mp hany
      exact hfresh d (List.mem_cons_self _ _) r hr (of_decide_eq_true hp)
    rw [insertInterests, hcond]
    simp only [Bool.false_eq_true, if_false]
    have hf2 : ∀ d' ∈ ds, ∀ r ∈ t ++ [⟨sid, d, .pending⟩],
        ¬(r.spaceID = sid ∧ r.docID = d') := by
      intro d' hd' r hr
      rcases List.mem_append.mp hr with h | h
      · exact hfresh d' (List.mem_cons_of_mem _ hd') r h
      · rcases List.mem_cons.mp h with heq | habs
        · subst heq
          rintro ⟨-, hid⟩
          apply (List.nodup_cons.mp hnodup).1
          rw [show d = d' from hid]
          exact hd'
        · cases habs
    refine (ih (t ++ [⟨sid, d, .pending⟩]) hf2 (List.nodup_cons.mp hnodup).2).trans ?_
    simp

theorem insertInterests_error_of_mem (sid : Nat) :
    ∀ (ds : List String) (t : List InterestRow),
      (∃ d ∈ ds, ∃ r ∈ t, r.spaceID = sid ∧ r.docID = d) →
      insertInterests sid t ds = .error .interestKeyConflict := by
  intro ds
  induction ds with
  | nil => rintro t ⟨d, hd, -⟩; cases hd
  | cons d ds ih =>
    intro t hconf
    by_cases hcond : t.any (fun r => decide (r.spaceID = sid ∧ r.docID = d)) = true
    · rw [insertInterests, hcond]; rfl
    · rw [insertInterests, Bool.eq_false_iff.mpr hcond]
      simp only [Bool.false_eq_true, if_false]
      obtain ⟨d0, hd0, r, hr, hrp⟩ := hconf
      rcases List.mem_cons.mp hd0 with heq | hd0'
      · exfalso
        subst heq
        exact hcond (List.any_eq_true.mpr ⟨r, hr, decide_eq_true hrp⟩)
      · exact ih _ ⟨d0, hd0', r, List.mem_append_left _ hr, hrp⟩

theorem insertInterests_error_of_dup (sid : Nat) :
    ∀ (ds : List String) (t : List InterestRow), ¬ds.Nodup →
      insertInterests sid t ds = .error .interestKeyConflict := by
  intro ds
  induction ds with
  | nil => intro t h; exact absurd List.nodup_nil h
  | cons d ds ih =>
    intro t hdup
    by_cases hcond : t.any (fun r => decide (r.spaceID = sid ∧ r.docID = d)) = true
    · rw [insertInterests, hcond]; rfl
    · rw [insertInterests, Bool.eq_false_iff.mpr hcond]
      simp only [Bool.false_eq_true, if_false]
      by_cases hmem : d ∈ ds
      · exact insertInterests_error_of_mem sid ds _
          ⟨d, hmem, ⟨sid, d, .pending⟩,
            List.mem_append_right _ (List.mem_cons_self _ _), rfl, rfl⟩
      · exact ih _ (fun hn => hdup (List.nodup_cons.mpr ⟨hmem, hn⟩))

/-- C3 (counterexample): with an empty interest table (so every existing
interest row of the space is trivially served), `setInterestList` on the
list `["a", "a"]` fails — the duplicate violates the interest primary key
— refuting "succeeds if and only if every existing interest row has
state = served". -/
theorem set_interest_list_counterexample :
    (∀ r ∈ exDupState.interest, r.spaceID = 1 → r.state = .served) ∧
    setInterestList exDupState "s" ["a", "a"] 5 = .error .interestKeyConflict ∧
    ¬ ∃ st', setInterestList exDupState "s" ["a", "a"] 5 = .ok st' := by
  refine ⟨by simp [exDupState], by rfl, ?_⟩
  rintro ⟨st', h⟩
  rw [show setInterestList exDupState "s" ["a", "a"] 5 =
    .error .interestKeyConflict from rfl] at h
  cases h

/-- C3 (amended): given the space row, `setInterestList` succeeds if and
only if every existing interest row of the space is served *and* the
proposed list has no duplicate document id (a duplicate violates the
interest primary key and rolls the transaction back); when a non-served
row exists it fails with `ActiveListExists`; on success it replaces the
space's interest rows by the proposed list in `pending` state, leaves
other spaces' rows alone, and stamps the space's `listCreatedAtNanos`
with the current time. -/
theorem set_interest_list_spec :
    ∀ (st : DBState) (space : String) (list : List String) (now : Int) (srow : SpaceRow),
      st.spaces.find? (fun s => decide (s.space = space)) = some srow →
      ((∃ st', setInterestList st space list now = .ok st') ↔
        ((∀ r ∈ st.interest, r.spaceID = srow.spaceID → r.state = .served) ∧
          list.Nodup)) ∧
      ((∃ r ∈ st.interest, r.spaceID = srow.spaceID ∧ r.state ≠ .served) →
        setInterestList st space list now = .error .activeListExists) ∧
      ((∀ r ∈ st.interest, r.spaceID = srow.spaceID → r.state = .served) →
        list.Nodup →
        setInterestList st space list now = .ok
          { st with
            interest :=
              st.interest.filter (fun r => decide (r.spaceID ≠ srow.spaceID)) ++
                list.map (fun d => ⟨srow.spaceID, d, .pending⟩),
            spaces := st.spaces.map (fun s =>
              if s.spaceID = srow.spaceID then { s with listCreatedAtNanos := now }
              else s) }) := by
  intro st space list now srow h1
  have hguard : ∀ hA : ∀ r ∈ st.interest, r.spaceID = srow.spaceID → r.state = .served,
      (st.interest.filter (fun r =>
        decide (r.spaceID = srow.spaceID ∧ r.state ≠ .served))).length = 0 := by
    intro hA
    rw [List.length_eq_zero, List.filter_eq_nil_iff]
    intro r hr
    simp only [decide_eq_true_eq, not_and, not_not]
    intro hsid
    simp [hA r hr hsid]
  have hfresh : ∀ d ∈ list, ∀ r ∈
      st.interest.filter (fun r => decide (r.spaceID ≠ srow.spaceID)),
      ¬(r.spaceID = srow.spaceID ∧ r.docID = d) := by
    intro d _ r hr hp
    have := (List.mem_filter.mp hr).2
    simp only [decide_eq_true_eq] at this
    exact this hp.1
  refine ⟨⟨?_, ?_⟩, ?_, ?_⟩
  · rintro ⟨st', hok⟩
    simp only [setInterestList, h1] at hok
    by_cases hA : ∀ r ∈ st.interest, r.spaceID = srow.spaceID → r.state = .served
    · refine ⟨hA, ?_⟩
      by_contra hdup
      have hc0 : ¬ ((st.interest.filter (fun r =>
          decide (r.spaceID = srow.spaceID ∧ r.state ≠ .served))).length ≠ 0) := by
        simp only [ne_eq, not_not]
        exact hguard hA
      rw [if_neg hc0] at hok
      rw [insertInterests_error_of_dup srow.spaceID list _ hdup] at hok
      cases hok
    · exfalso
      push_neg at hA
      obtain ⟨r, hr, hsid, hst⟩ := hA
      have hcne : (st.interest.filter (fun r =>
          decide (r.spaceID = srow.spaceID ∧ r.state ≠ .served))).length ≠ 0 := by
        intro hzero
        rw [List.length_eq_zero, List.filter_eq_nil_iff] at hzero
        exact hzero r hr (by simp [hsid, hst])
      rw [if_pos hcne] at hok
      cases hok
  · rintro ⟨hA, hnodup⟩
    have hc0 : ¬ ((st.interest.filter (fun r =>
        decide (r.spaceID = srow.spaceID ∧ r.state ≠ .served))).length ≠ 0) := by
      simp only [ne_eq, not_not]
      exact hguard hA
    refine ⟨{ st with
        interest :=
          st.interest.filter (fun r => decide (r.spaceID ≠ srow.spaceID)) ++
            list.map (fun d => ⟨srow.spaceID, d, .pending⟩),
        spaces := st.spaces.map (fun s =>
          if s.spaceID = srow.spaceID then { s with listCreatedAtNanos := now }
          else s) }, ?_⟩
    simp only [setInterestList, h1]
    rw [if_neg hc0]
    rw [insertInterests_ok srow.spaceID list _ hfresh hnodup]
  · rintro ⟨r, hr, hsid, hst⟩
    have hcne : (st.interest.filter (fun r =>
        decide (r.spaceID = srow.spaceID ∧ r.state ≠ .served))).length ≠ 0 := by
      intro hzero
      rw [List.length_eq_zero, List.filter_eq_nil_iff] at hzero
      exact hzero r hr (by simp [hsid, hst])
    simp only [setInterestList, h1]
    rw [if_pos hcne]
  · intro hA hnodup
    have hc0 : ¬ ((st.interest.filter (fun r =>
        decide (r.spaceID = srow.spaceID ∧ r.state ≠ .served))).length ≠ 0) := by
      simp only [ne_eq, not_not]
      exact hguard hA
    simp only [setInterestList, h1]
    rw [if_neg hc0]
    rw [insertInterests_ok srow.spaceID list _ hfresh hnodup]

/-- C3 (witness): the amended characterization applied to the duplicate
state with a duplicate-free list. -/
theorem set_interest_list_spec_witness :
    (exDupState.spaces.find? (fun s => decide (s.space = "s")) =
      some ⟨1, "s", 10, 0, ""⟩) ∧
    (((∃ st', setInterestList exDupState "s" ["a", "b"] 5 = .ok st') ↔
        ((∀ r ∈ exDupState.interest, r.spaceID = 1 → r.state = .served) ∧
          (["a", "b"] : List String).Nodup)) ∧
      ((∃ r ∈ exDupState.interest, r.spaceID = 1 ∧ r.state ≠ .served) →
        setInterestList exDupState "s" ["a", "b"] 5 = .error .activeListExists) ∧
      ((∀ r ∈ exDupState.interest, r.spaceID = 1 → r.state = .served) →
        (["a", "b"] : List String).Nodup →
        setInterestList exDupState "s" ["a", "b"] 5 = .ok
          { exDupState with
            interest :=
              exDupState.interest.filter (fun r => decide (r.spaceID ≠ 1)) ++
                (["a", "b"] : List String).map (fun d => ⟨1, d, .pending⟩),
            spaces := exDupState.spaces.map (fun s =>
              if s.spaceID = 1 then { s with listCreatedAtNanos := 5 }
              else s) })) :=
  ⟨by rfl, set_interest_list_spec exDupState "s" ["a", "b"] 5 ⟨1, "s", 10, 0, ""⟩ (by rfl)⟩

/-!
## Document updates (`addDocumentUpdates`)
-/

theorem applyDocs_cons (sid : Nat) (dt : List DocRow) (d : Document)
    (ds : List Document) :
    applyDocs sid dt (d :: ds) = applyDocs sid (upsertDoc dt (mkDocRow sid d)) ds := rfl

theorem serveDocs_cons (sid : Nat) (it : List InterestRow) (d : Document)
    (ds : List Document) :
    serveDocs sid it (d :: ds) = serveDocs sid (serveInterest it sid d.id) ds := rfl

theorem addDocsLoop_ok (sid : Nat) (reports : Nat → Nat) :
    ∀ (ds : List Document) (k : Nat) (dt : List DocRow) (it : List InterestRow),
      (∀ i, i < ds.length → reports (k + i) = 1) →
      addDocsLoop sid reports k ds (dt, it) =
        .ok (applyDocs sid dt ds, serveDocs sid it ds) := by
  intro ds
  induction ds with
  | nil => intro k dt it _; rfl
  | cons d ds ih =>
    intro k dt it hrep
    have h0 : reports k = 1 := by simpa using hrep 0 (by simp)
    simp only [addDocsLoop, h0, if_true]
    rw [applyDocs_cons, serveDocs_cons]
    exact ih (k + 1) _ _ (fun i hi => by
      have := hrep (i + 1) (by simpa using Nat.succ_lt_succ hi)
      rw [show k + 1 + i = k + (i + 1) from by omega]
      exact this)

theorem addDocsLoop_error (sid : Nat) (reports : Nat → Nat) :
    ∀ (ds : List Document) (k : Nat) (dt : List DocRow) (it : List InterestRow),
      (∃ i, i < ds.length ∧ reports (k + i) ≠ 1) →
      addDocsLoop sid reports k ds (dt, it) = .error .docWriteFailed := by
  intro ds
  induction ds with
  | nil =>
    rintro k dt it ⟨i, hi, -⟩
    simp at hi
  | cons d ds ih =>
    rintro k dt it ⟨i, hi, hbad⟩
    by_cases h0 : reports k = 1
    · simp only [addDocsLoop, h0, if_true]
      cases i with
      | zero => exact absurd (by simpa using h0) hbad
      | succ j =>
        exact ih (k + 1) _ _ ⟨j, by simpa using Nat.lt_of_succ_lt_succ hi, by
          rw [show k + 1 + j = k + (j + 1) from by omega]
          exact hbad⟩
    · simp only [addDocsLoop]
      rw [if_neg h0]

/-- C5: `addDocumentUpdates` runs the batch as one transaction: with the
space id resolved, it succeeds exactly when every upsert's reported
affected-row count is 1, in which case the docs table receives every
document's row (keyed by `(spaceID, docID)`, with `txt` emptied for dead
documents, via `mkDocRow`) and the matching interest rows become served;
if any upsert reports a count other than one the whole call fails with
`DocWriteFailed` and, the transaction rolling back, no state is produced. -/
theorem add_document_updates_spec :
    ∀ (reports : Nat → Nat) (st : DBState) (space : String) (ds : List Document)
      (sid : Nat),
      getSpaceID st space = some sid →
      ((∀ i, i < ds.length → reports i = 1) →
        addDocumentUpdates reports st space ds = .ok
          { st with docs := applyDocs sid st.docs ds,
                    interest := serveDocs sid st.interest ds }) ∧
      ((∃ i, i < ds.length ∧ reports i ≠ 1) →
        addDocumentUpdates reports st space ds = .error .docWriteFailed) ∧
      ((∃ st', addDocumentUpdates reports st space ds = .ok st') ↔
        (∀ i, i < ds.length → reports i = 1)) := by
  intro reports st space ds sid hsid
  have hok : (∀ i, i < ds.length → reports i = 1) →
      addDocumentUpdates reports st space ds = .ok
        { st with docs := applyDocs sid st.docs ds,
                  interest := serveDocs sid st.interest ds } := by
    intro hall
    simp only [addDocumentUpdates, hsid]
    rw [addDocsLoop_ok sid reports ds 0 st.docs st.interest (by simpa using hall)]
  have herr : (∃ i, i < ds.length ∧ reports i ≠ 1) →
      addDocumentUpdates reports st space ds = .error .docWriteFailed := by
    intro hex
    simp only [addDocumentUpdates, hsid]
    rw [addDocsLoop_error sid reports ds 0 st.docs st.interest (by simpa using hex)]
  refine ⟨hok, herr, ⟨?_, fun hall => ⟨_, hok hall⟩⟩⟩
  rintro ⟨st', hst'⟩
  by_contra hnot
  push_neg at hnot
  obtain ⟨i, hi, hbad⟩ := hnot
  rw [herr ⟨i, hi, hbad⟩] at hst'
  cases hst'

/-- C5 (witness): against the concrete one-row state, truthful reports
commit the tombstone batch and a zero report aborts with
`DocWriteFailed`. -/
theorem add_document_updates_spec_witness :
    (getSpaceID exDocState "s" = some 1) ∧
    addDocumentUpdates (fun _ => 1) exDocState "s" exBatch = .ok
      { exDocState with docs := applyDocs 1 exDocState.docs exBatch,
                        interest := serveDocs 1 exDocState.interest exBatch } ∧
    addDocumentUpdates (fun _ => 0) exDocState "s" exBatch =
      .error .docWriteFailed :=
  ⟨by rfl,
    (add_document_updates_spec (fun _ => 1) exDocState "s" exBatch 1 (by rfl)).1
      (fun i _ => rfl),
    (add_document_updates_spec (fun _ => 0) exDocState "s" exBatch 1 (by rfl)).2.1
      ⟨0, by simp [exBatch], by simp⟩⟩

/-!
## Idempotence of the batch effects
-/

theorem serveRow_spaceID (sid : Nat) (d : String) (r : InterestRow) :
    (serveRow sid d r).spaceID = r.spaceID := by
  rw [serveRow]; split <;> rfl

theorem serveRow_docID (sid : Nat) (d : String) (r : InterestRow) :
    (serveRow sid d r).docID = r.docID := by
  rw [serveRow]; split <;> rfl

theorem serveRow_self (sid : Nat) (d : String) (r : InterestRow) :
    serveRow sid d (serveRow sid d r) = serveRow sid d r := by
  by_cases h : r.spaceID = sid ∧ r.docID = d
  · have hin : serveRow sid d r = { r with state := .served } := by
      rw [serveRow, if_pos h]
    rw [hin, serveRow,
      if_pos (show ({ r with state := InterestState.served } : InterestRow).spaceID = sid ∧
        ({ r with state := InterestState.served } : InterestRow).docID = d from h)]
  · have hin : serveRow sid d r = r := by rw [serveRow, if_neg h]
    rw [hin, hin]

theorem serveRow_comm (sid : Nat) (d e : String) (r : InterestRow) :
    serveRow sid e (serveRow sid d r) = serveRow sid d (serveRow sid e r) := by
  by_cases hd : r.spaceID = sid ∧ r.docID = d <;>
    by_cases he : r.spaceID = sid ∧ r.docID = e
  · have h1 : serveRow sid d r = { r with state := .served } := by
      rw [serveRow, if_pos hd]
    have h2 : serveRow sid e r = { r with state := .served } := by
      rw [serveRow, if_pos he]
    rw [h1, h2, serveRow,
      if_pos (show ({ r with state := InterestState.served } : InterestRow).spaceID = sid ∧
        ({ r with state := InterestState.served } : InterestRow).docID = e from he),
      serveRow,
      if_pos (show ({ r with state := InterestState.served } : InterestRow).spaceID = sid ∧
        ({ r with state := InterestState.served } : InterestRow).docID = d from hd)]
  · have h1 : serveRow sid d r = { r with state := .served } := by
      rw [serveRow, if_pos hd]
    have h2 : serveRow sid e r = r := by rw [serveRow, if_neg he]
    rw [h1, h2, h1, serveRow,
      if_neg (show ¬(({ r with state := InterestState.served } : InterestRow).spaceID = sid ∧
        ({ r with state := InterestState.served } : InterestRow).docID = e) from he)]
  · have h1 : serveRow sid d r = r := by rw [serveRow, if_neg hd]
    have h2 : serveRow sid e r = { r with state := .served } := by
      rw [serveRow, if_pos he]
    rw [h1, h2, serveRow,
      if_neg (show ¬(({ r with state := InterestState.served } : InterestRow).spaceID = sid ∧
        ({ r with state := InterestState.served } : InterestRow).docID = d) from hd)]
  · have h1 : serveRow sid d r = r := by rw [serveRow, if_neg hd]
    have h2 : serveRow sid e r = r := by rw [serveRow, if_neg he]
    rw [h1, h2, h1]

theorem serveInterest_self (t : List InterestRow) (sid : Nat) (d : String) :
    serveInterest (serveInterest t sid d) sid d = serveInterest t sid d := by
  simp only [serveInterest, List.map_map]
  apply List.map_congr_left
  intro r _
  exact serveRow_self sid d r

theorem serveInterest_comm (t : List InterestRow) (sid : Nat) (d e : String) :
    serveInterest (serveInterest t sid d) sid e =
      serveInterest (serveInterest t sid e) sid d := by
  simp only [serveInterest, List.map_map]
  apply List.map_congr_left
  intro r _
  exact serveRow_comm sid d e r

theorem serveDocs_serveInterest_comm (sid : Nat) (ds : List Document) :
    ∀ (t : List InterestRow) (d : String),
      serveDocs sid (serveInterest t sid d) ds =
        serveInterest (serveDocs sid t ds) sid d := by
  induction ds with
  | nil => intro t d; rfl
  | cons e ds ih =>
    intro t d
    rw [serveDocs_cons, serveDocs_cons, serveInterest_comm t sid d e.id, ih]

theorem serveDocs_idem (sid : Nat) (ds : List Document) :
    ∀ t : List InterestRow, serveDocs sid (serveDocs sid t ds) ds = serveDocs sid t ds := by
  induction ds with
  | nil => intro t; rfl
  | cons d ds ih =>
    intro t
    rw [serveDocs_cons, serveDocs_cons, ← serveDocs_serveInterest_comm,
      serveInterest_self, ih]

theorem serveDocs_fields (sid : Nat) (ds : List Document) :
    ∀ (t : List InterestRow) (x : InterestRow), x ∈ serveDocs sid t ds →
      ∃ r ∈ t, r.spaceID = x.spaceID ∧ r.docID = x.docID := by
  induction ds with
  | nil => intro t x hx; exact ⟨x, hx, rfl, rfl⟩
  | cons d ds ih =>
    intro t x hx
    rw [serveDocs_cons] at hx
    obtain ⟨r, hr, hsp, hid⟩ := ih _ x hx
    simp only [serveInterest, List.mem_map] at hr
    obtain ⟨r0, hr0, heq⟩ := hr
    refine ⟨r0, hr0, ?_, ?_⟩
    · rw [← hsp, ← heq, serveRow_spaceID]
    · rw [← hid, ← heq, serveRow_docID]

theorem applyDocs_canonical (sid : Nat) :
    ∀ (ds : List Document) (dt : List DocRow),
      applyDocs sid dt ds =
        dt.filter (fun x => decide (docKey x ∉ batchKeys sid ds)) ++
          applyDocs sid [] ds := by
  intro ds
  induction ds with
  | nil => intro dt; simp [applyDocs, batchKeys]
  | cons d ds ih =>
    intro dt
    rw [applyDocs_cons, ih (upsertDoc dt (mkDocRow sid d)),
      show applyDocs sid [] (d :: ds) = applyDocs sid [mkDocRow sid d] ds from rfl,
      ih [mkDocRow sid d]]
    rw [upsertDoc, List.filter_append, List.filter_filter, List.append_assoc]
    congr 1
    apply List.filter_congr
    intro x _
    by_cases h1 : x.spaceID = sid ∧ x.docID = d.id <;>
      by_cases h2 : docKey x ∈ batchKeys sid ds <;>
        simp [docKey, batchKeys, mkDocRow, h1, h2, Prod.ext_iff]

theorem applyDocs_rows (sid : Nat) :
    ∀ (ds : List Document) (t : List DocRow) (x : DocRow),
      x ∈ applyDocs sid t ds → x ∈ t ∨ ∃ d ∈ ds, x = mkDocRow sid d := by
  intro ds
  induction ds with
  | nil => intro t x hx; exact Or.inl hx
  | cons d ds ih =>
    intro t x hx
    rw [applyDocs_cons] at hx
    rcases ih _ x hx with h | ⟨e, he, hx⟩
    · rcases List.mem_append.mp h with h | h
      · exact Or.inl (List.mem_of_mem_filter h)
      · rcases List.mem_cons.mp h with heq | habs
        · exact Or.inr ⟨d, List.mem_cons_self _ _, heq⟩
        · cases habs
    · exact Or.inr ⟨e, List.mem_cons_of_mem _ he, hx⟩

theorem applyDocs_key_present (sid : Nat) :
    ∀ (ds : List Document) (t : List DocRow) (k : Nat × String),
      (∃ x ∈ t, docKey x = k) →
      ∃ x ∈ applyDocs sid t ds, docKey x = k := by
  intro ds
  induction ds with
  | nil => intro t k h; exact h
  | cons d ds ih =>
    intro t k h
    rw [applyDocs_cons]
    apply ih
    obtain ⟨x, hx, hk⟩ := h
    by_cases hrem : x.spaceID = (mkDocRow sid d).spaceID ∧ x.docID = (mkDocRow sid d).docID
    · refine ⟨mkDocRow sid d, List.mem_append_right _ (List.mem_cons_self _ _), ?_⟩
      rw [← hk]
      simp [docKey, hrem.1, hrem.2]
    · exact ⟨x, List.mem_append_left _
        (List.mem_filter.mpr ⟨hx, decide_eq_true hrem⟩), hk⟩

theorem applyDocs_covers (sid : Nat) :
    ∀ (ds : List Document) (t : List DocRow) (d : Document), d ∈ ds →
      ∃ x ∈ applyDocs sid t ds, docKey x = (sid, d.id) := by
  intro ds
  induction ds with
  | nil => intro t d hd; cases hd
  | cons e ds ih =>
    intro t d hd
    rw [applyDocs_cons]
    rcases List.mem_cons.mp hd with heq | hd'
    · subst heq
      exact applyDocs_key_present sid ds _ _
        ⟨mkDocRow sid d, List.mem_append_right _ (List.mem_cons_self _ _), rfl⟩
    · exact ih _ d hd'

theorem applyDocs_nil_keys (sid : Nat) (ds : List Document) :
    ∀ x ∈ applyDocs sid [] ds, docKey x ∈ batchKeys sid ds := by
  intro x hx
  rcases applyDocs_rows sid ds [] x hx with h | ⟨d, hd, hx⟩
  · cases h
  · subst hx
    simp only [batchKeys, List.mem_map]
    exact ⟨d, hd, rfl⟩

theorem applyDocs_idem (sid : Nat) (ds : List Document) (dt : List DocRow) :
    applyDocs sid (applyDocs sid dt ds) ds = applyDocs sid dt ds := by
  rw [applyDocs_canonical sid ds dt, applyDocs_canonical sid ds
    (dt.filter (fun x => decide (docKey x ∉ batchKeys sid ds)) ++ applyDocs sid [] ds),
    List.filter_append, List.filter_filter]
  have h1 : (applyDocs sid [] ds).filter
      (fun x => decide (docKey x ∉ batchKeys sid ds)) = [] := by
    rw [List.filter_eq_nil_iff]
    intro x hx
    simpa using applyDocs_nil_keys sid ds x hx
  have h2 : dt.filter (fun x =>
      decide (docKey x ∉ batchKeys sid ds) && decide (docKey x ∉ batchKeys sid ds)) =
      dt.filter (fun x => decide (docKey x ∉ batchKeys sid ds)) := by
    apply List.filter_congr
    intro x _
    exact Bool.and_self _
  rw [h1, h2, List.append_nil]

/-- C9: `addDocumentUpdates` is idempotent — whenever applying a batch
once succeeds, applying the identical batch to the resulting state
succeeds as well and returns exactly the same state (same docs rows and
interest states). -/
theorem add_document_updates_idempotent :
    ∀ (st : DBState) (space : String) (ds : List Document) (st' : DBState),
      addDocumentUpdatesRun st space ds = .ok st' →
      addDocumentUpdatesRun st' space ds = .ok st' := by
  intro st space ds st' hok
  simp only [addDocumentUpdatesRun] at hok ⊢
  cases hsid : getSpaceID st space with
  | none => rw [addDocumentUpdates, hsid] at hok; cases hok
  | some sid =>
    rw [(add_document_updates_spec (fun _ => 1) st space ds sid hsid).1
      (fun _ _ => rfl)] at hok
    cases hok
    have hsid' : getSpaceID
        { st with docs := applyDocs sid st.docs ds,
                  interest := serveDocs sid st.interest ds } space = some sid := hsid
    rw [(add_document_updates_spec (fun _ => 1) _ space ds sid hsid').1
      (fun _ _ => rfl)]
    simp only [applyDocs_idem, serveDocs_idem]

/-- C9 (witness): the tombstone batch applied twice to the concrete
state. -/
theorem add_document_updates_idempotent_witness :
    (addDocumentUpdatesRun exDocState "s" exBatch = .ok
      { exDocState with docs := applyDocs 1 exDocState.docs exBatch,
                        interest := serveDocs 1 exDocState.interest exBatch }) ∧
    addDocumentUpdatesRun
      { exDocState with docs := applyDocs 1 exDocState.docs exBatch,
                        interest := serveDocs 1 exDocState.interest exBatch } "s" exBatch = .ok
      { exDocState with docs := applyDocs 1 exDocState.docs exBatch,
                        interest := serveDocs 1 exDocState.interest exBatch } :=
  ⟨by rfl, add_document_updates_idempotent exDocState "s" exBatch _ (by rfl)⟩

/-!
## Tombstones and the search read path
-/

theorem applyDocs_batch_key_rows (sid : Nat) (ds : List Document) (t : List DocRow)
    (k : Nat × String) (hk : k ∈ batchKeys sid ds) :
    ∀ x ∈ applyDocs sid t ds, docKey x = k → ∃ e ∈ ds, x = mkDocRow sid e := by
  intro x hx hxk
  rw [applyDocs_canonical] at hx
  rcases List.mem_append.mp hx with h | h
  · have hfil := (List.mem_filter.mp h).2
    rw [hxk] at hfil
    exact absurd hk (of_decide_eq_true hfil)
  · rcases applyDocs_rows sid ds [] x h with habs | hgood
    · cases habs
    · exact hgood

theorem insertByRank_mem (rank : DocRow → Int) (d : DocRow) :
    ∀ (l : List DocRow) (x : DocRow),
      x ∈ insertByRank rank d l ↔ x = d ∨ x ∈ l := by
  intro l
  induction l with
  | nil => intro x; simp [insertByRank]
  | cons y ys ih =>
    intro x
    rw [insertByRank]
    by_cases h : rank d ≤ rank y
    · rw [if_pos h]
      simp [List.mem_cons]
    · rw [if_neg h]
      simp only [List.mem_cons, ih]
      tauto

theorem sortByRank_mem (rank : DocRow → Int) :
    ∀ (l : List DocRow) (x : DocRow), x ∈ sortByRank rank l ↔ x ∈ l := by
  intro l
  induction l with
  | nil => intro x; simp [sortByRank]
  | cons y ys ih =>
    intro x
    rw [sortByRank, List.foldr_cons, insertByRank_mem]
    rw [sortByRank] at ih
    rw [ih]
    simp [List.mem_cons]

theorem search_mem_rows (matchP : String → Bool) (rank : DocRow → Int)
    (st : DBState) (spacesIn : List String) (limit offset : Nat) :
    ∀ x ∈ search matchP rank st spacesIn limit offset,
      x ∈ searchRows matchP st spacesIn := by
  intro x hx
  rw [search] at hx
  have h1 := (List.take_sublist _ _).subset hx
  have h2 := (List.drop_sublist _ _).subset h1
  exact (sortByRank_mem rank _ x).mp h2

theorem searchRows_alive (matchP : String → Bool) (st : DBState)
    (spacesIn : List String) :
    ∀ x ∈ searchRows matchP st spacesIn, x ∈ st.docs ∧ x.alive = true := by
  intro x hx
  obtain ⟨hmem, hpred⟩ := List.mem_filter.mp hx
  refine ⟨hmem, ?_⟩
  simp only [Bool.and_eq_true] at hpred
  exact hpred.1.2

/-- C8: a dead document (`Alive = false`) processed by a successful
`addDocumentUpdates` leaves a docs row with `alive = false` and an empty
`txt` regardless of the incoming text, and `search` — which filters on
`docs.alive` — never returns that `(spaceID, docID)`, for every match
predicate, rank, space selection, limit and offset. -/
theorem tombstone_spec :
    ∀ (st : DBState) (space : String) (ds : List Document) (st' : DBState)
      (d : Document) (sid : Nat),
      getSpaceID st space = some sid →
      addDocumentUpdatesRun st space ds = .ok st' →
      d ∈ ds → d.alive = false →
      (∀ e ∈ ds, e.id = d.id → e = d) →
      (∀ x ∈ st'.docs, docKey x = (sid, d.id) → x.txt = "" ∧ x.alive = false) ∧
      (∃ x ∈ st'.docs, docKey x = (sid, d.id)) ∧
      (∀ (matchP : String → Bool) (rank : DocRow → Int) (spacesIn : List String)
        (limit offset : Nat),
        ∀ x ∈ search matchP rank st' spacesIn limit offset,
          docKey x ≠ (sid, d.id)) := by
  intro st space ds st' d sid hsid hok hd hdead huniq
  rw [addDocumentUpdatesRun,
    (add_document_updates_spec (fun _ => 1) st space ds sid hsid).1 (fun _ _ => rfl)] at hok
  cases hok
  have hkey : (sid, d.id) ∈ batchKeys sid ds := by
    simp only [batchKeys, List.mem_map]
    exact ⟨d, hd, rfl⟩
  have hrows : ∀ x ∈ applyDocs sid st.docs ds, docKey x = (sid, d.id) →
      x.txt = "" ∧ x.alive = false := by
    intro x hx hxk
    obtain ⟨e, he, hxe⟩ := applyDocs_batch_key_rows sid ds st.docs _ hkey x hx hxk
    subst hxe
    have heid : e.id = d.id := by
      simpa [docKey, mkDocRow] using hxk
    have hed : e = d := huniq e he heid
    subst hed
    simp [mkDocRow, hdead]
  refine ⟨hrows, applyDocs_covers sid ds st.docs d hd, ?_⟩
  intro matchP rank spacesIn limit offset x hx hxk
  have hxr := search_mem_rows matchP rank _ spacesIn limit offset x hx
  obtain ⟨hxdocs, halive⟩ := searchRows_alive matchP _ spacesIn x hxr
  have hdeadrow := (hrows x hxdocs hxk).2
  rw [halive] at hdeadrow
  cases hdeadrow

/-- C8 (witness): the concrete tombstone batch, checked against the
all-pass match predicate. -/
theorem tombstone_spec_witness :
    (getSpaceID exDocState "s" = some 1) ∧
    (addDocumentUpdatesRun exDocState "s" exBatch = .ok
      { exDocState with docs := applyDocs 1 exDocState.docs exBatch,
                        interest := serveDocs 1 exDocState.interest exBatch }) ∧
    ((∀ x ∈ ({ exDocState with
        docs := applyDocs 1 exDocState.docs exBatch,
        interest := serveDocs 1 exDocState.interest exBatch } : DBState).docs,
      docKey x = (1, "a") → x.txt = "" ∧ x.alive = false) ∧
      (∃ x ∈ ({ exDocState with
        docs := applyDocs 1 exDocState.docs exBatch,
        interest := serveDocs 1 exDocState.interest exBatch } : DBState).docs,
        docKey x = (1, "a")) ∧
      (∀ (matchP : String → Bool) (rank : DocRow → Int) (spacesIn : List String)
        (limit offset : Nat),
        ∀ x ∈ search matchP rank
          { exDocState with docs := applyDocs 1 exDocState.docs exBatch,
                            interest := serveDocs 1 exDocState.interest exBatch }
          spacesIn limit offset,
          docKey x ≠ (1, "a"))) :=
  ⟨by rfl, by rfl,
    tombstone_spec exDocState "s" exBatch _ ⟨"a", 7, false, "ignored"⟩ 1
      (by rfl) (by rfl) (by decide)
      (by rfl) (by decide)⟩

/-- C10: a document of the batch whose `(spaceID, docID)` has no matching
interest row does not make `addDocumentUpdates` fail: the interest
update's affected-row count is never checked, so the call succeeds, the
document row is upserted and persisted, and the interest table still has
no row for that key. -/
theorem missing_interest_row_spec :
    ∀ (st : DBState) (space : String) (ds : List Document) (d : Document) (sid : Nat),
      getSpaceID st space = some sid →
      d ∈ ds →
      (∀ r ∈ st.interest, ¬(r.spaceID = sid ∧ r.docID = d.id)) →
      addDocumentUpdatesRun st space ds = .ok
        { st with docs := applyDocs sid st.docs ds,
                  interest := serveDocs sid st.interest ds } ∧
      (∃ x ∈ applyDocs sid st.docs ds, docKey x = (sid, d.id)) ∧
      (∀ r ∈ serveDocs sid st.interest ds, ¬(r.spaceID = sid ∧ r.docID = d.id)) := by
  intro st space ds d sid hsid hd hnorow
  refine ⟨(add_document_updates_spec (fun _ => 1) st space ds sid hsid).1 (fun _ _ => rfl),
    applyDocs_covers sid ds st.docs d hd, ?_⟩
  rintro r hr ⟨hp1, hp2⟩
  obtain ⟨r0, hr0, hsp, hid⟩ := serveDocs_fields sid ds st.interest r hr
  exact hnorow r0 hr0 ⟨by rw [hsp, hp1], by rw [hid, hp2]⟩

/-- C10 (witness): the batch for `"b"`, which has no interest row in the
concrete state. -/
theorem missing_interest_row_spec_witness :
    (getSpaceID exDocState "s" = some 1) ∧
    (addDocumentUpdatesRun exDocState "s" exBatchNoInterest = .ok
      { exDocState with docs := applyDocs 1 exDocState.docs exBatchNoInterest,
                        interest := serveDocs 1 exDocState.interest exBatchNoInterest }) ∧
    (∃ x ∈ applyDocs 1 exDocState.docs exBatchNoInterest, docKey x = (1, "b")) ∧
    (∀ r ∈ serveDocs 1 exDocState.interest exBatchNoInterest,
      ¬(r.spaceID = 1 ∧ r.docID = "b")) :=
  ⟨by rfl,
    (missing_interest_row_spec exDocState "s" exBatchNoInterest ⟨"b", 9, true, "fresh"⟩ 1
      (by rfl) (by decide) (by decide)).1,
    (missing_interest_row_spec exDocState "s" exBatchNoInterest ⟨"b", 9, true, "fresh"⟩ 1
      (by rfl) (by decide) (by decide)).2⟩

/-!
## Stall detection and reset (`resetRequested`)
-/

/-- C7: when work remains, the cycle resets the chunk exactly when
`MaxDocumentWait` is non-zero and the time since the last document
request exceeds it: `resetRequested` turns every requested row of the
space back to pending and leaves rows of other spaces, and rows not in
the requested state, untouched; with `MaxDocumentWait = 0` no reset ever
happens. -/
theorem stall_reset_spec :
    ∀ (maxWait nowN lastReq : Int) (st : DBState) (space : String) (sid : Nat),
      getSpaceID st space = some sid →
      ((0 < maxWait → lastReq + maxWait < nowN →
        stallCheck maxWait nowN lastReq st space = resetRequested st space ∧
        ∃ st', resetRequested st space = .ok st' ∧
          st'.interest.length = st.interest.length ∧
          ∀ (i : Nat) (h1 : i < st.interest.length) (h2 : i < st'.interest.length),
            ((st.interest.get ⟨i, h1⟩).state = .requested →
              (st.interest.get ⟨i, h1⟩).spaceID = sid →
              st'.interest.get ⟨i, h2⟩ =
                { st.interest.get ⟨i, h1⟩ with state := .pending }) ∧
            (¬((st.interest.get ⟨i, h1⟩).state = .requested ∧
                (st.interest.get ⟨i, h1⟩).spaceID = sid) →
              st'.interest.get ⟨i, h2⟩ = st.interest.get ⟨i, h1⟩)) ∧
      (maxWait = 0 → stallCheck maxWait nowN lastReq st space = .ok st)) := by
  intro maxWait nowN lastReq st space sid hsid
  constructor
  · intro hpos helapsed
    have hcond : maxWait ≠ 0 ∧ lastReq + maxWait < nowN := ⟨by omega, helapsed⟩
    refine ⟨by rw [stallCheck, if_pos hcond], ?_⟩
    simp only [resetRequested, hsid]
    refine ⟨_, rfl, by simp, ?_⟩
    intro i h1 h2
    constructor
    · intro hreq hsp
      simp only [List.get_eq_getElem, List.getElem_map]
      exact if_pos ⟨hreq, hsp⟩
    · intro hnot
      simp only [List.get_eq_getElem, List.getElem_map]
      exact if_neg hnot
  · intro h0
    rw [stallCheck, if_neg (by simp [h0])]

/-- C7 (witness): the reset characterization applied to the concrete
two-space state with an elapsed stall timeout, and the disabled timeout
case. -/
theorem stall_reset_spec_witness :
    (getSpaceID exStallState "s" = some 1) ∧
    ((0 : Int) < 5) ∧ ((0 : Int) + 5 < 10) ∧
    (stallCheck 5 10 0 exStallState "s" = resetRequested exStallState "s" ∧
      ∃ st', resetRequested exStallState "s" = .ok st' ∧
        st'.interest.length = exStallState.interest.length ∧
        ∀ (i : Nat) (h1 : i < exStallState.interest.length)
          (h2 : i < st'.interest.length),
          ((exStallState.interest.get ⟨i, h1⟩).state = .requested →
            (exStallState.interest.get ⟨i, h1⟩).spaceID = 1 →
            st'.interest.get ⟨i, h2⟩ =
              { exStallState.interest.get ⟨i, h1⟩ with state := .pending }) ∧
          (¬((exStallState.interest.get ⟨i, h1⟩).state = .requested ∧
              (exStallState.interest.get ⟨i, h1⟩).spaceID = 1) →
            st'.interest.get ⟨i, h2⟩ = exStallState.interest.get ⟨i, h1⟩)) ∧
    (stallCheck 0 10 0 exStallState "s" = .ok exStallState) :=
  ⟨by rfl, by decide, by decide,
    (stall_reset_spec 5 10 0 exStallState "s" 1 (by rfl)).1 (by decide) (by decide),
    (stall_reset_spec 0 10 0 exStallState "s" 1 (by rfl)).2 rfl⟩

/-!
## Requesting the next chunk
-/

/-- C6 (counterexample): after the all-served branch for space `"A"`, a
reply carrying space `"B"` installs the received updates as the interest
list of space `"B"` (spaceID 2), not of the requested space `"A"`
(spaceID 1): `requestNextChunk` passes the reply's `update.Space` to
`setInterestList`, not the requested space. -/
theorem request_next_chunk_counterexample :
    allServedBranch ⟨2, 3, 0, 7⟩ exTwoSpaces "A" ⟨"B", ["x"]⟩ 99 =
      .ok (⟨"A", 42, "z", 3, 7⟩,
        { spaces := [⟨1, "A", 10, 42, "z"⟩, ⟨2, "B", 99, 0, ""⟩],
          interest := [⟨2, "x", .pending⟩], docs := [] }) ∧
    getSpaceID exTwoSpaces "A" = some 1 ∧
    getSpaceID exTwoSpaces "B" = some 2 ∧
    (∀ r ∈ [(⟨2, "x", .pending⟩ : InterestRow)], r.spaceID ≠ 1) :=
  ⟨by rfl, by rfl, by rfl, by decide⟩

/-- C6 (amended): when a chunk is fully served the cycle commits and then
fetches the space's post-commit cursor, issues the synchronous
`IndexUpdateRequest` with `fromTime` and `afterDocument` from that cursor,
`limit = ChunkSize` and deadline `MaxInterestWait`, and installs the
received updates as the new pending interest list of the space named in
the *reply* (`update.Space`) — which coincides with the requested space
only when the provider echoes it. -/
theorem request_next_chunk_spec :
    ∀ (cfg : Config) (st st1 : DBState) (space : String) (reply : IndexUpdate)
      (now : Int) (srow srow2 : SpaceRow),
      commitInterestList st space = .ok st1 →
      st1.spaces.find? (fun s => decide (s.space = space)) = some srow →
      st1.spaces.find? (fun s => decide (s.space = reply.space)) = some srow2 →
      (∀ r ∈ st1.interest, r.spaceID = srow2.spaceID → r.state = .served) →
      reply.updates.Nodup →
      allServedBranch cfg st space reply now = .ok
        (⟨space, srow.lastUpdatedAtNanos, srow.lastUpdatedDocID,
          cfg.chunkSize, cfg.maxInterestWaitNanos⟩,
        { st1 with
          interest :=
            st1.interest.filter (fun r => decide (r.spaceID ≠ srow2.spaceID)) ++
              reply.updates.map (fun d => ⟨srow2.spaceID, d, .pending⟩),
          spaces := st1.spaces.map (fun s =>
            if s.spaceID = srow2.spaceID then { s with listCreatedAtNanos := now }
            else s) }) := by
  intro cfg st st1 space reply now srow srow2 hcommit hfind hfind2 hserved hnodup
  simp only [allServedBranch, hcommit]
  simp only [requestNextChunk, hfind]
  simp only [(set_interest_list_spec st1 reply.space reply.updates now srow2
    hfind2).2.2 hserved hnodup]

/-- C6 (witness): the next-chunk request applied to the concrete two-space
state with a well-formed reply for the requested space itself. -/
theorem request_next_chunk_spec_witness :
    (commitInterestList exTwoSpaces "A" = .ok exTwoSpaces) ∧
    (exTwoSpaces.spaces.find? (fun s => decide (s.space = "A")) =
      some ⟨1, "A", 10, 42, "z"⟩) ∧
    ((["w", "x"] : List String).Nodup) ∧
    allServedBranch ⟨2, 3, 0, 7⟩ exTwoSpaces "A" ⟨"A", ["w", "x"]⟩ 99 = .ok
      (⟨"A", 42, "z", 3, 7⟩,
      { exTwoSpaces with
        interest :=
          exTwoSpaces.interest.filter (fun r => decide (r.spaceID ≠ 1)) ++
            (["w", "x"] : List String).map (fun d => ⟨1, d, .pending⟩),
        spaces := exTwoSpaces.spaces.map (fun s =>
          if s.spaceID = 1 then { s with listCreatedAtNanos := 99 }
          else s) }) :=
  ⟨by rfl, by rfl, by decide,
    request_next_chunk_spec ⟨2, 3, 0, 7⟩ exTwoSpaces exTwoSpaces "A" ⟨"A", ["w", "x"]⟩
      99 ⟨1, "A", 10, 42, "z"⟩ ⟨1, "A", 10, 42, "z"⟩
      (by rfl) (by rfl) (by rfl) (by decide) (by decide)⟩

/-!
## Counting requested rows and key uniqueness
-/

theorem countRequested_le_length (t : List InterestRow) (sid : Nat) :
    countRequested t sid ≤ t.length :=
  List.length_filter_le _ t

theorem countRequested_cons (r : InterestRow) (t : List InterestRow) (sid : Nat) :
    countRequested (r :: t) sid =
      (if r.spaceID = sid ∧ r.state = .requested then 1 else 0) +
        countRequested t sid := by
  unfold countRequested
  rw [List.filter_cons]
  by_cases h : r.spaceID = sid ∧ r.state = .requested
  · rw [if_pos (decide_eq_true h), if_pos h, List.length_cons]
    omega
  · rw [if_neg (by simpa using h), if_neg h]
    omega

theorem countRequested_append (a b : List InterestRow) (sid : Nat) :
    countRequested (a ++ b) sid = countRequested a sid + countRequested b sid := by
  unfold countRequested
  rw [List.filter_append, List.length_append]

theorem countRequested_filter_le (t : List InterestRow) (q : InterestRow → Bool)
    (sid : Nat) : countRequested (t.filter q) sid ≤ countRequested t sid :=
  ((List.filter_sublist t).filter _).length_le

theorem countRequested_map_le (t : List InterestRow) (sid : Nat)
    (f : InterestRow → InterestRow)
    (hf : ∀ r, (f r).spaceID = sid ∧ (f r).state = .requested →
      r.spaceID = sid ∧ r.state = .requested) :
    countRequested (t.map f) sid ≤ countRequested t sid := by
  induction t with
  | nil => exact Nat.le_refl _
  | cons r t ih =>
    rw [List.map_cons, countRequested_cons, countRequested_cons]
    by_cases hp : (f r).spaceID = sid ∧ (f r).state = .requested
    · rw [if_pos hp, if_pos (hf r hp)]
      omega
    · rw [if_neg hp]
      have := ih
      by_cases hq : r.spaceID = sid ∧ r.state = .requested <;>
        [rw [if_pos hq]; rw [if_neg hq]] <;> omega

theorem countRequested_map_congr (t : List InterestRow) (sid : Nat)
    (f : InterestRow → InterestRow)
    (hf : ∀ r, ((f r).spaceID = sid ∧ (f r).state = .requested) ↔
      (r.spaceID = sid ∧ r.state = .requested)) :
    countRequested (t.map f) sid = countRequested t sid := by
  induction t with
  | nil => rfl
  | cons r t ih =>
    rw [List.map_cons, countRequested_cons, countRequested_cons, ih]
    by_cases hp : r.spaceID = sid ∧ r.state = .requested
    · rw [if_pos ((hf r).mpr hp), if_pos hp]
    · rw [if_neg (fun hc => hp ((hf r).mp hc)), if_neg hp]

theorem keysNodup_map (t : List InterestRow) (f : InterestRow → InterestRow)
    (hf : ∀ r, (f r).spaceID = r.spaceID ∧ (f r).docID = r.docID)
    (h : interestKeysNodup t) : interestKeysNodup (t.map f) := by
  unfold interestKeysNodup at *
  rw [List.map_map]
  have heq : ((fun r : InterestRow => (r.spaceID, r.docID)) ∘ f) =
      (fun r : InterestRow => (r.spaceID, r.docID)) := by
    funext r
    simp [Function.comp, (hf r).1, (hf r).2]
  rw [heq]
  exact h

theorem keysNodup_filter (t : List InterestRow) (q : InterestRow → Bool)
    (h : interestKeysNodup t) : interestKeysNodup (t.filter q) :=
  ((List.filter_sublist t).map _).nodup h

theorem countRequested_setStateRow_le (t : List InterestRow) (sid : Nat) (d : String)
    (hnd : interestKeysNodup t) :
    countRequested (t.map (fun r =>
      if r.spaceID = sid ∧ r.docID = d then { r with state := .requested } else r))
      sid ≤ countRequested t sid + 1 := by
  induction t with
  | nil => simp [countRequested]
  | cons r t ih =>
    have hnd' : interestKeysNodup t := by
      unfold interestKeysNodup at hnd ⊢
      exact (List.nodup_cons.mp hnd).2
    rw [List.map_cons, countRequested_cons, countRequested_cons]
    by_cases hkey : r.spaceID = sid ∧ r.docID = d
    · have hrest : ∀ x ∈ t, ¬(x.spaceID = sid ∧ x.docID = d) := by
        intro x hx hp
        unfold interestKeysNodup at hnd
        apply (List.nodup_cons.mp hnd).1
        rw [List.mem_map]
        exact ⟨x, hx, by simp [hp.1, hp.2, hkey.1, hkey.2]⟩
      have hmapid : t.map (fun r =>
          if r.spaceID = sid ∧ r.docID = d then { r with state := InterestState.requested }
          else r) = t := by
        have hcongr := List.map_congr_left (l := t)
          (f := fun r => if r.spaceID = sid ∧ r.docID = d then
            { r with state := InterestState.requested } else r)
          (g := fun r => r) (fun x hx => if_neg (hrest x hx))
        rw [hcongr, List.map_id']
      rw [hmapid]
      by_cases hfr : ((if r.spaceID = sid ∧ r.docID = d then
            { r with state := InterestState.requested } else r).spaceID = sid ∧
          (if r.spaceID = sid ∧ r.docID = d then
            { r with state := InterestState.requested } else r).state = .requested) <;>
        [rw [if_pos hfr]; rw [if_neg hfr]] <;>
          by_cases hq : r.spaceID = sid ∧ r.state = .requested <;>
            [skip; skip; skip; skip] <;>
              first
              | (rw [if_pos hq]; omega)
              | (rw [if_neg hq]; omega)
    · have hfr : (if r.spaceID = sid ∧ r.docID = d then
          { r with state := InterestState.requested } else r) = r := if_neg hkey
      rw [hfr]
      have := ih hnd'
      by_cases hq : r.spaceID = sid ∧ r.state = .requested <;>
        [rw [if_pos hq]; rw [if_neg hq]] <;> omega

theorem markIDs_cons (st : DBState) (sid : Nat) (d : String) (ids : List String) :
    markRequestedIDs st sid (d :: ids) =
      markRequestedIDs (setInterestStateRow st sid d .requested) sid ids := rfl

theorem setStateRow_interest (st : DBState) (sid : Nat) (d : String)
    (s0 : InterestState) :
    (setInterestStateRow st sid d s0).interest = st.interest.map (fun r =>
      if r.spaceID = sid ∧ r.docID = d then { r with state := s0 } else r) := rfl

theorem keysNodup_setStateRow (st : DBState) (sid : Nat) (d : String)
    (s0 : InterestState) (h : interestKeysNodup st.interest) :
    interestKeysNodup (setInterestStateRow st sid d s0).interest := by
  rw [setStateRow_interest]
  exact keysNodup_map _ _ (fun r => by split <;> exact ⟨rfl, rfl⟩) h

theorem keysNodup_markIDs (sid : Nat) (ids : List String) :
    ∀ st : DBState, interestKeysNodup st.interest →
      interestKeysNodup (markRequestedIDs st sid ids).interest := by
  induction ids with
  | nil => intro st h; exact h
  | cons d ids ih =>
    intro st h
    rw [markIDs_cons]
    exact ih _ (keysNodup_setStateRow st sid d .requested h)

theorem countRequested_markIDs_le (sid : Nat) (ids : List String) :
    ∀ st : DBState, interestKeysNodup st.interest →
      countRequested (markRequestedIDs st sid ids).interest sid ≤
        countRequested st.interest sid + ids.length := by
  induction ids with
  | nil => intro st _; simp [markRequestedIDs]
  | cons d ids ih =>
    intro st hnd
    rw [markIDs_cons]
    have h1 := ih (setInterestStateRow st sid d .requested)
      (keysNodup_setStateRow st sid d .requested hnd)
    have h2 := countRequested_setStateRow_le st.interest sid d hnd
    rw [setStateRow_interest] at h1
    rw [List.length_cons]
    omega

theorem countRequested_markIDs_other (sid sid0 : Nat) (hne : sid0 ≠ sid)
    (ids : List String) :
    ∀ st : DBState, countRequested (markRequestedIDs st sid ids).interest sid0 =
      countRequested st.interest sid0 := by
  induction ids with
  | nil => intro st; rfl
  | cons d ids ih =>
    intro st
    rw [markIDs_cons, ih, setStateRow_interest]
    apply countRequested_map_congr
    intro r
    by_cases hc : r.spaceID = sid ∧ r.docID = d
    · rw [if_pos hc]
      constructor
      · rintro ⟨hs, -⟩
        exact absurd (hc.1 ▸ hs : sid = sid0).symm hne
      · rintro ⟨hs, -⟩
        exact absurd (hc.1 ▸ hs : sid = sid0).symm hne
    · rw [if_neg hc]

theorem serveRow_requested (sid : Nat) (d : String) (r : InterestRow)
    (h : (serveRow sid d r).state = .requested) :
    serveRow sid d r = r := by
  by_cases hc : r.spaceID = sid ∧ r.docID = d
  · rw [serveRow, if_pos hc] at h
    cases h
  · rw [serveRow, if_neg hc]

theorem keysNodup_serveDocs (sid : Nat) (ds : List Document) :
    ∀ t, interestKeysNodup t → interestKeysNodup (serveDocs sid t ds) := by
  induction ds with
  | nil => intro t h; exact h
  | cons d ds ih =>
    intro t h
    rw [serveDocs_cons]
    exact ih _ (keysNodup_map _ _
      (fun r => ⟨serveRow_spaceID sid d.id r, serveRow_docID sid d.id r⟩) h)

theorem countRequested_serveDocs_le (sid : Nat) (ds : List Document) (sid0 : Nat) :
    ∀ t, countRequested (serveDocs sid t ds) sid0 ≤ countRequested t sid0 := by
  induction ds with
  | nil => intro t; exact Nat.le_refl _
  | cons d ds ih =>
    intro t
    rw [serveDocs_cons]
    refine (ih _).trans ?_
    apply countRequested_map_le
    intro r ⟨hs, hq⟩
    have hid := serveRow_requested sid d.id r hq
    rw [hid] at hs hq
    exact ⟨hs, hq⟩

/-!
## Inversion of the successful write operations
-/

theorem addDocumentUpdates_ok_inversion {reports : Nat → Nat} {st : DBState}
    {space : String} {ds : List Document} {st' : DBState}
    (h : addDocumentUpdates reports st space ds = .ok st') :
    ∃ sid, getSpaceID st space = some sid ∧
      st' = { st with docs := applyDocs sid st.docs ds,
                      interest := serveDocs sid st.interest ds } := by
  cases hsid : getSpaceID st space with
  | none =>
    simp only [addDocumentUpdates, hsid] at h
    cases h
  | some sid =>
    have hall : ∀ i, i < ds.length → reports i = 1 :=
      (add_document_updates_spec reports st space ds sid hsid).2.2.mp ⟨st', h⟩
    rw [(add_document_updates_spec reports st space ds sid hsid).1 hall] at h
    injection h with h
    exact ⟨sid, rfl, h.symm⟩

theorem setInterestList_ok_inversion {st : DBState} {space : String}
    {list : List String} {now : Int} {st' : DBState}
    (h : setInterestList st space list now = .ok st') :
    ∃ srow, st.spaces.find? (fun s => decide (s.space = space)) = some srow ∧
      (∀ r ∈ st.interest, r.spaceID = srow.spaceID → r.state = .served) ∧
      list.Nodup ∧
      st' = { st with
        interest := st.interest.filter (fun r => decide (r.spaceID ≠ srow.spaceID)) ++
          list.map (fun d => ⟨srow.spaceID, d, .pending⟩),
        spaces := st.spaces.map (fun s =>
          if s.spaceID = srow.spaceID then { s with listCreatedAtNanos := now }
          else s) } := by
  cases hfind : st.spaces.find? (fun s => decide (s.space = space)) with
  | none =>
    simp only [setInterestList, hfind] at h
    cases h
  | some srow =>
    obtain ⟨hA, hN⟩ := (set_interest_list_spec st space list now srow hfind).1.mp ⟨st', h⟩
    rw [(set_interest_list_spec st space list now srow hfind).2.2 hA hN] at h
    injection h with h
    exact ⟨srow, rfl, hA, hN, h.symm⟩

theorem resetRequested_ok_inversion {st : DBState} {space : String} {st' : DBState}
    (h : resetRequested st space = .ok st') :
    ∃ sid, getSpaceID st space = some sid ∧
      st' = { st with interest := st.interest.map (fun r =>
        if r.state = .requested ∧ r.spaceID = sid then { r with state := .pending }
        else r) } := by
  cases hsid : getSpaceID st space with
  | none =>
    simp only [resetRequested, hsid] at h
    cases h
  | some sid =>
    simp only [resetRequested, hsid] at h
    injection h with h
    exact ⟨sid, rfl, h.symm⟩

theorem clearInterestList_ok_inversion {st : DBState} {space : String} {st' : DBState}
    (h : clearInterestList st space = .ok st') :
    ∃ sid, getSpaceID st space = some sid ∧
      st' = { st with interest :=
        st.interest.filter (fun r => decide (r.spaceID ≠ sid)) } := by
  cases hsid : getSpaceID st space with
  | none =>
    simp only [clearInterestList, hsid] at h
    cases h
  | some sid =>
    simp only [clearInterestList, hsid] at h
    injection h with h
    exact ⟨sid, rfl, h.symm⟩

theorem commitInterestList_ok_interest {st : DBState} {space : String} {st' : DBState}
    (h : commitInterestList st space = .ok st') : st'.interest = st.interest := by
  cases hfind : st.spaces.find? (fun s => decide (s.space = space)) with
  | none =>
    simp only [commitInterestList, hfind] at h
    injection h with h
    rw [← h]
  | some srow =>
    simp only [commitInterestList, hfind] at h
    cases hsel : selectCommitRow (commitCandidates st srow.listCreatedAtNanos) with
    | none =>
      simp only [hsel] at h
      injection h with h
      rw [← h]
    | some p =>
      obtain ⟨u, d⟩ := p
      simp only [hsel] at h
      by_cases hlen : (st.spaces.filter (fun s => decide (s.space = space))).length = 1
      · rw [if_pos hlen] at h
        injection h with h
        rw [← h]
      · rw [if_neg hlen] at h
        cases h

/-!
## The bounded-outstanding invariant
-/

theorem countByState_interestOf (st : DBState) (sid : Nat) (s : InterestState) :
    countByState (interestOf st sid) s =
      (st.interest.filter (fun r => decide (r.spaceID = sid ∧ r.state = s))).length := by
  unfold countByState interestOf
  rw [List.filter_filter]
  congr 1
  apply List.filter_congr
  intro r _
  by_cases h1 : r.state = s <;> by_cases h2 : r.spaceID = sid <;> simp [h1, h2]

theorem countRequested_eq_countByState (st : DBState) (sid : Nat) :
    countRequested st.interest sid = countByState (interestOf st sid) .requested := by
  rw [countByState_interestOf]
  rfl

theorem requestPhaseObserved_inv (cfg : Config) (st : DBState) (space : String)
    (j : Nat) (hinv : indexerInv cfg st) :
    indexerInv cfg (requestPhaseObserved cfg st space j) := by
  obtain ⟨hnd, hbound⟩ := hinv
  simp only [requestPhaseObserved]
  cases hsid : getSpaceID st space with
  | none => exact ⟨hnd, hbound⟩
  | some sid =>
    show indexerInv cfg (if 0 < docsToRequest cfg (interestOf st sid) then
      markRequestedIDs st sid (((pendingIDs (interestOf st sid)).take
        (docsToRequest cfg (interestOf st sid)).toNat).take j) else st)
    by_cases hwant : 0 < docsToRequest cfg (interestOf st sid)
    · rw [if_pos hwant]
      refine ⟨keysNodup_markIDs _ _ _ hnd, ?_⟩
      intro sid0
      by_cases hs : sid0 = sid
      · subst hs
        have h1 := countRequested_markIDs_le sid0
          (((pendingIDs (interestOf st sid0)).take
            (docsToRequest cfg (interestOf st sid0)).toNat).take j) st hnd
        have e1 := List.length_take j
          ((pendingIDs (interestOf st sid0)).take
            (docsToRequest cfg (interestOf st sid0)).toNat)
        have e2 := List.length_take (docsToRequest cfg (interestOf st sid0)).toNat
          (pendingIDs (interestOf st sid0))
        have hR : docsToRequest cfg (interestOf st sid0) ≤
            (cfg.maxOutstanding : Int) -
              (countByState (interestOf st sid0) .requested : Int) :=
          min_le_right _ _
        have hcount := countRequested_eq_countByState st sid0
        omega
      · rw [countRequested_markIDs_other sid sid0 hs _ st]
        exact hbound sid0
    · rw [if_neg hwant]
      exact ⟨hnd, hbound⟩

theorem indexerStep_preserves_inv (cfg : Config) :
    ∀ (st st' : DBState), IndexerStep cfg st st' →
      indexerInv cfg st → indexerInv cfg st' := by
  intro st st' hstep hinv
  obtain ⟨hnd, hbound⟩ := hinv
  cases hstep with
  | serve space ds reports h =>
    obtain ⟨sid, -, heq⟩ := addDocumentUpdates_ok_inversion h
    subst heq
    exact ⟨keysNodup_serveDocs sid ds _ hnd,
      fun sid0 => (countRequested_serveDocs_le sid ds sid0 _).trans (hbound sid0)⟩
  | setList space list now h =>
    obtain ⟨srow, -, -, hN, heq⟩ := setInterestList_ok_inversion h
    subst heq
    constructor
    · unfold interestKeysNodup
      rw [List.map_append, List.nodup_append]
      refine ⟨keysNodup_filter _ _ hnd, ?_, ?_⟩
      · rw [List.map_map]
        have hcomp : ((fun r : InterestRow => (r.spaceID, r.docID)) ∘
            (fun d => (⟨srow.spaceID, d, .pending⟩ : InterestRow))) =
            (fun d => (srow.spaceID, d)) := rfl
        rw [hcomp]
        exact hN.map (fun a b hab => by simpa using hab)
      · intro k hk1 hk2
        simp only [List.mem_map, List.mem_filter] at hk1 hk2
        obtain ⟨r, ⟨-, hrq⟩, hkr⟩ := hk1
        obtain ⟨x, ⟨d, -, hxd⟩, hkx⟩ := hk2
        have hr1 : r.spaceID ≠ srow.spaceID := by simpa using hrq
        apply hr1
        have : k.1 = r.spaceID := by rw [← hkr]
        rw [← hxd] at hkx
        have : k.1 = srow.spaceID := by rw [← hkx]
        omega
    · intro sid0
      rw [countRequested_append]
      have hc1 := countRequested_filter_le st.interest
        (fun r => decide (r.spaceID ≠ srow.spaceID)) sid0
      have hc2 : countRequested
          (list.map (fun d => (⟨srow.spaceID, d, .pending⟩ : InterestRow))) sid0 = 0 := by
        unfold countRequested
        rw [List.length_eq_zero, List.filter_eq_nil_iff]
        intro x hx
        simp only [List.mem_map] at hx
        obtain ⟨d, -, rfl⟩ := hx
        simp
      have := hbound sid0
      omega
  | clear space h =>
    obtain ⟨sid, -, heq⟩ := clearInterestList_ok_inversion h
    subst heq
    exact ⟨keysNodup_filter _ _ hnd,
      fun sid0 => (countRequested_filter_le _ _ sid0).trans (hbound sid0)⟩
  | reset space h =>
    obtain ⟨sid, -, heq⟩ := resetRequested_ok_inversion h
    subst heq
    refine ⟨keysNodup_map _ _ (fun r => by split <;> exact ⟨rfl, rfl⟩) hnd, ?_⟩
    intro sid0
    refine (countRequested_map_le _ _ _ ?_).trans (hbound sid0)
    rintro r ⟨hs, hq⟩
    by_cases hc : r.state = .requested ∧ r.spaceID = sid
    · rw [if_pos hc] at hq
      cases hq
    · rw [if_neg hc] at hs hq
      exact ⟨hs, hq⟩
  | commit space h =>
    have hint := commitInterestList_ok_interest h
    unfold indexerInv
    rw [hint]
    exact ⟨hnd, hbound⟩
  | request space j =>
    exact requestPhaseObserved_inv cfg _ space j ⟨hnd, hbound⟩

theorem updateCycleRequestPhase_parts (cfg : Config) (st : DBState) (space : String)
    (sid : Nat) (pubOk : Bool) (hsid : getSpaceID st space = some sid)
    (hwant : 0 < docsToRequest cfg (interestOf st sid)) :
    (updateCycleRequestPhase cfg st space pubOk).2 =
      (if pubOk then [⟨space, (pendingIDs (interestOf st sid)).take
        (docsToRequest cfg (interestOf st sid)).toNat⟩] else []) ∧
    ((pendingIDs (interestOf st sid)).take
      (docsToRequest cfg (interestOf st sid)).toNat).length =
      (docsToRequest cfg (interestOf st sid)).toNat ∧
    (updateCycleRequestPhase cfg st space pubOk).1 =
      markRequestedIDs st sid ((pendingIDs (interestOf st sid)).take
        (docsToRequest cfg (interestOf st sid)).toNat) := by
  simp only [updateCycleRequestPhase, hsid]
  rw [if_pos hwant]
  refine ⟨rfl, ?_, rfl⟩
  have hple : docsToRequest cfg (interestOf st sid) ≤
      (countByState (interestOf st sid) .pending : Int) := min_le_left _ _
  have hlen : (pendingIDs (interestOf st sid)).length =
      countByState (interestOf st sid) .pending := by
    unfold pendingIDs countByState
    rw [List.length_map]
  rw [List.length_take, hlen]
  omega

/-- C4: when `docsToRequest = min(numPending, MaxOutstanding − numRequested)`
is positive, the request phase publishes exactly one `DocumentRequest`
whose wanted list is the first `docsToRequest` pending document ids of the
space (exactly that many), and transitions those rows to `requested`
before — hence independently of — the publish; consequently, over every
serialized write of the indexer (document batches, list installs, clears,
resets, commits, and every one-by-one prefix of the request phase's
transitions), the invariant "interest keys are unique and no space has
more than `MaxOutstanding` requested rows" is preserved. -/
theorem bounded_outstanding_spec :
    (∀ (cfg : Config) (st : DBState) (space : String) (sid : Nat) (pubOk : Bool),
      getSpaceID st space = some sid →
      0 < docsToRequest cfg (interestOf st sid) →
      (updateCycleRequestPhase cfg st space pubOk).2 =
        (if pubOk then [⟨space, (pendingIDs (interestOf st sid)).take
          (docsToRequest cfg (interestOf st sid)).toNat⟩] else []) ∧
      ((pendingIDs (interestOf st sid)).take
        (docsToRequest cfg (interestOf st sid)).toNat).length =
        (docsToRequest cfg (interestOf st sid)).toNat ∧
      (updateCycleRequestPhase cfg st space pubOk).1 =
        markRequestedIDs st sid ((pendingIDs (interestOf st sid)).take
          (docsToRequest cfg (interestOf st sid)).toNat)) ∧
    (∀ (cfg : Config) (st st' : DBState),
      IndexerStep cfg st st' → indexerInv cfg st → indexerInv cfg st') :=
  ⟨fun cfg st space sid pubOk hsid hwant =>
      updateCycleRequestPhase_parts cfg st space sid pubOk hsid hwant,
    indexerStep_preserves_inv⟩

/-- C4 (witness): the request phase and one observed request transition on
the concrete two-space state, under `MaxOutstanding = 4`. -/
theorem bounded_outstanding_spec_witness :
    (getSpaceID exStallState "s" = some 1) ∧
    (0 < docsToRequest ⟨4, 3, 0, 0⟩ (interestOf exStallState 1)) ∧
    ((updateCycleRequestPhase ⟨4, 3, 0, 0⟩ exStallState "s" true).2 =
      (if true then [⟨"s", (pendingIDs (interestOf exStallState 1)).take
        (docsToRequest ⟨4, 3, 0, 0⟩ (interestOf exStallState 1)).toNat⟩] else []) ∧
      ((pendingIDs (interestOf exStallState 1)).take
        (docsToRequest ⟨4, 3, 0, 0⟩ (interestOf exStallState 1)).toNat).length =
        (docsToRequest ⟨4, 3, 0, 0⟩ (interestOf exStallState 1)).toNat ∧
      (updateCycleRequestPhase ⟨4, 3, 0, 0⟩ exStallState "s" true).1 =
        markRequestedIDs exStallState 1 ((pendingIDs (interestOf exStallState 1)).take
          (docsToRequest ⟨4, 3, 0, 0⟩ (interestOf exStallState 1)).toNat)) ∧
    indexerInv ⟨4, 3, 0, 0⟩ exStallState ∧
    indexerInv ⟨4, 3, 0, 0⟩ (requestPhaseObserved ⟨4, 3, 0, 0⟩ exStallState "s" 1) := by
  have hinv : indexerInv ⟨4, 3, 0, 0⟩ exStallState := by
    refine ⟨by decide, fun sid => (countRequested_le_length _ _).trans (by decide)⟩
  exact ⟨by rfl, by decide,
    bounded_outstanding_spec.1 ⟨4, 3, 0, 0⟩ exStallState "s" 1 true (by rfl) (by decide),
    hinv,
    bounded_outstanding_spec.2 ⟨4, 3, 0, 0⟩ exStallState _
      (IndexerStep.request exStallState "s" 1) hinv⟩

/-- C2 (witness): the amended monotonicity applied to the first concrete
commit, whose only candidate `(10, "x")` dominates the cursor `(0, "")`. -/
theorem commit_monotone_of_candidates_ge_witness :
    (exSeqMid.spaces.find? (fun s => decide (s.space = "s")) =
      some ⟨1, "s", 100, 10, "x"⟩) ∧
    (commitInterestList exSeqMid "s" = .ok exSeqMid) ∧
    (∀ c ∈ commitCandidates exSeqMid 100, cursorLE (10, "x") c) ∧
    (∃ srow', exSeqMid.spaces.find? (fun s => decide (s.space = "s")) = some srow' ∧
      cursorLE (10, "x") (srow'.lastUpdatedAtNanos, srow'.lastUpdatedDocID)) :=
  ⟨by rfl, by rfl, by decide,
    commit_monotone_of_candidates_ge exSeqMid "s" ⟨1, "s", 100, 10, "x"⟩ exSeqMid
      (by rfl) (by rfl) (by decide)⟩

end Letarette
